import Mathlib

/-!
Verification of the configuration-resolution engine in `labgrid/util/yaml.py`
(custom YAML loading, include resolution, deep merge, template substitution)
and of the `Config` facade accessors exercised by `tests/test_config.py`.

The document tree is embedded as the inductive `Node`; Python dicts become
ordered association lists, Python lists become Lean lists, and the special
values produced by the custom loader constructors (`python/tuple` tuples,
`!template` strict templates, `!optional_template` optional templates, and
opaque Python objects) get their own constructors.  Fallible Python code is
embedded as functions returning `Except PyErr _`, where `PyErr` separates the
Python exception classes that the source raises (`TypeError`, `KeyError`,
`ValueError` from `string.Template`, the wrapped `ValueError` raised by
`resolve_templates`, and `InvalidConfigError`).
-/

/-- A YAML document tree as built by the custom `Loader`:
mappings (ordered, string keys), sequences, `python/tuple` tuples,
scalars, strict/optional template placeholders, and opaque objects
(the latter only reachable through `Config.set_target_option`). -/
inductive Node where
  | null : Node
  | bool : Bool → Node
  | int : Int → Node
  | float : Rat → Node
  | str : String → Node
  | seq : List Node → Node
  | tuple : List Node → Node
  | map : List (String × Node) → Node
  | tmpl : String → Node
  | otmpl : String → Node
  | obj : Nat → Node

/-- The Python exceptions raised by the embedded code. -/
inductive PyErr where
  | typeError (msg : String) : PyErr
  | keyError (key : String) : PyErr
  | invalidPlaceholder : PyErr
  | invalidTemplateString (tmpl : String) : PyErr
  | invalidConfig (msg : String) : PyErr
  | runtimeError (msg : String) : PyErr
deriving DecidableEq, Repr

/-- First-occurrence lookup in an ordered association list (Python `d[k]`
read access / `k in d`). -/
def alookup (k : String) : List (String × Node) → Option Node
  | [] => none
  | (k', v) :: rest => if k' = k then some v else alookup k rest

/-- Python `d[k] = v`: replace the value at the first occurrence of `k`,
or append a new binding when `k` is absent (dict insertion order). -/
def pyUpdate (m : List (String × Node)) (k : String) (v : Node) : List (String × Node) :=
  match m with
  | [] => [(k, v)]
  | (k', v') :: rest => if k' = k then (k, v) :: rest else (k', v') :: pyUpdate rest k v

/-- Python `d.pop(k)`: remove the binding for `k`. -/
def eraseKey (k : String) : List (String × Node) → List (String × Node)
  | [] => []
  | (k', v) :: rest => if k' = k then rest else (k', v) :: eraseKey k rest

/-- The keys of a mapping are pairwise distinct (always true of a Python
dict): no key occurs again further down the list. -/
def keysNodup : List (String × Node) → Bool
  | [] => true
  | (k, _) :: rest => (alookup k rest).isNone && keysNodup rest

/-- Rendering of `type(x)` for the embedded values, as used in the error
messages of `data_merge` and `resolve_includes`. -/
def pyType : Node → String
  | .null => "<class 'NoneType'>"
  | .bool _ => "<class 'bool'>"
  | .int _ => "<class 'int'>"
  | .float _ => "<class 'float'>"
  | .str _ => "<class 'str'>"
  | .seq _ => "<class 'list'>"
  | .tuple _ => "<class 'tuple'>"
  | .map _ => "<class 'dict'>"
  | .tmpl _ => "<class 'string.Template'>"
  | .otmpl _ => "<class 'labgrid.util.yaml.OptionalTemplate'>"
  | .obj _ => "<class 'object'>"

/-- The scalar class of `data_merge`'s third branch:
`a is None or isinstance(a, (six.string_types, float, six.integer_types))`
(`bool` is an `int` subclass in Python, so it is included). -/
def isPyScalar : Node → Bool
  | .null => true
  | .bool _ => true
  | .int _ => true
  | .float _ => true
  | .str _ => true
  | _ => false

/-- The message of `InvalidConfigError('Datatype not supported "%s" into "%s"'
% (type(b), type(a)))`. -/
def unsupMsg (b a : Node) : String :=
  "Datatype not supported \"" ++ pyType b ++ "\" into \"" ++ pyType a ++ "\""

/-- View a node as a mapping. -/
def asMap : Node → Option (List (String × Node))
  | .map m => some m
  | _ => none

/-- View a node as a (growable) sequence. -/
def asSeq : Node → Option (List Node)
  | .seq s => some s
  | _ => none

theorem asMap_sizeOf {b : Node} {bm : List (String × Node)}
    (h : asMap b = some bm) : sizeOf bm < sizeOf b := by
  cases b <;> simp [asMap] at h
  subst h; simp

mutual

/-- `data_merge(a, b)` from `labgrid/util/yaml.py`: merges override `b` into
base `a`.  Mapping-into-mapping merges recursively key by key; a list base
extends with a list override and appends any other override; a `None` or
primitive-scalar base is replaced by the override; every other base raises
`InvalidConfigError` naming both operand types. -/
def data_merge : Node → Node → Except PyErr Node
  | .map a, b =>
    match h : asMap b with
    | some bm => (mergeInto a bm).map Node.map
    | none => .error (.invalidConfig (unsupMsg b (.map a)))
  | .seq a, b =>
    match asSeq b with
    | some bs => .ok (.seq (a ++ bs))
    | none => .ok (.seq (a ++ [b]))
  | .null, b => .ok b
  | .bool _, b => .ok b
  | .int _, b => .ok b
  | .float _, b => .ok b
  | .str _, b => .ok b
  | .tuple a, b => .error (.invalidConfig (unsupMsg b (.tuple a)))
  | .tmpl t, b => .error (.invalidConfig (unsupMsg b (.tmpl t)))
  | .otmpl t, b => .error (.invalidConfig (unsupMsg b (.otmpl t)))
  | .obj n, b => .error (.invalidConfig (unsupMsg b (.obj n)))
termination_by a b => sizeOf b
decreasing_by
  simp_wf
  have := asMap_sizeOf h
  omega

/-- The `for key in b` loop of `data_merge` on two mappings: fold the
override's bindings into the base, merging recursively at shared keys. -/
def mergeInto (a : List (String × Node)) :
    List (String × Node) → Except PyErr (List (String × Node))
  | [] => .ok a
  | (k, vb) :: rest =>
    match alookup k a with
    | some va => (data_merge va vb).bind (fun v => mergeInto (pyUpdate a k v) rest)
    | none => mergeInto (pyUpdate a k vb) rest
termination_by l => sizeOf l
decreasing_by
  all_goals simp_wf <;> omega

end

/-- Start character of an identifier accepted by `string.Template`'s default
`idpattern` `(?a:[_a-zA-Z][_a-zA-Z0-9]*)`. -/
def isIdStart (c : Char) : Bool :=
  c = '_' || c.isAlpha

/-- Continuation character of a `string.Template` identifier. -/
def isIdCont (c : Char) : Bool :=
  isIdStart c || c.isDigit

/-- Longest identifier-continuation prefix, mirroring the greedy
`[_a-zA-Z0-9]*` part of the placeholder regex. -/
def takeIdCont : List Char → List Char × List Char
  | [] => ([], [])
  | c :: rest =>
    if isIdCont c then
      let (i, r) := takeIdCont rest
      (c :: i, r)
    else ([], c :: rest)

theorem takeIdCont_len (cs : List Char) : (takeIdCont cs).2.length ≤ cs.length := by
  induction cs with
  | nil => simp [takeIdCont]
  | cons c rest ih =>
    simp only [takeIdCont]
    split
    · exact Nat.le_trans ih (Nat.le_succ _)
    · simp

/-- One regex match of `string.Template.pattern` (or one character of
inter-match literal text): `$$` is an `escaped` match, `$name` and `${name}`
are `placeholder` matches, and a `$` followed by anything else matches with
the empty `invalid` group. -/
inductive TItem where
  | lit : Char → TItem
  | escaped : TItem
  | placeholder : String → TItem
  | invalid : TItem
deriving DecidableEq, Repr

/-- The `named` alternative of the placeholder regex (`$` already consumed):
an identifier-start character followed by the greedy identifier tail. -/
def parseNamed : List Char → Option (String × List Char)
  | c :: r =>
    if isIdStart c then
      match takeIdCont r with
      | (i, rest') => some (String.mk (c :: i), rest')
    else none
  | [] => none

/-- The `braced` alternative of the placeholder regex (`${` already
consumed): an identifier followed by the closing `}`. -/
def parseBraced : List Char → Option (String × List Char)
  | c :: r =>
    if isIdStart c then
      match takeIdCont r with
      | (i, '}' :: r'') => some (String.mk (c :: i), r'')
      | _ => none
    else none
  | [] => none

theorem parseNamed_len {cs rem : List Char} {n : String}
    (h : parseNamed cs = some (n, rem)) : rem.length < cs.length := by
  match cs with
  | [] => simp [parseNamed] at h
  | c :: r =>
    simp only [parseNamed] at h
    split at h
    · have hlen := takeIdCont_len r
      cases htk : takeIdCont r with
      | mk i rest' =>
        rw [htk] at h hlen
        simp at h hlen
        obtain ⟨-, h2⟩ := h
        subst h2
        simp
        omega
    · simp at h

theorem parseBraced_len {cs rem : List Char} {n : String}
    (h : parseBraced cs = some (n, rem)) : rem.length < cs.length := by
  match cs with
  | [] => simp [parseBraced] at h
  | c :: r =>
    simp only [parseBraced] at h
    split at h
    · have hlen := takeIdCont_len r
      cases htk : takeIdCont r with
      | mk i rest' =>
        rw [htk] at h hlen
        match rest' with
        | [] => simp at h
        | c' :: r'' =>
          by_cases hc : c' = '}'
          · subst hc
            simp at h hlen
            obtain ⟨-, h2⟩ := h
            subst h2
            simp at hlen ⊢
            omega
          · simp [hc] at h
    · simp at h

/-- The left-to-right regex scan performed by `string.Template`'s
`pattern.sub`: at each `$` the alternatives `escaped`, `named`, `braced`,
`invalid` are tried in order (an `invalid` match consumes just the `$`);
all other characters are literal text. -/
def lexTmpl : List Char → List TItem
  | [] => []
  | '$' :: '$' :: r => .escaped :: lexTmpl r
  | '$' :: '{' :: r =>
    match h : parseBraced r with
    | some (n, rem) => .placeholder n :: lexTmpl rem
    | none => .invalid :: lexTmpl ('{' :: r)
  | '$' :: cs =>
    match h : parseNamed cs with
    | some (n, rem) => .placeholder n :: lexTmpl rem
    | none => .invalid :: lexTmpl cs
  | c :: rest => .lit c :: lexTmpl rest
termination_by cs => cs.length
decreasing_by
  all_goals simp_wf
  all_goals try omega
  · have := parseBraced_len h
    omega
  · have := parseNamed_len h
    omega

/-- The `convert` callback of `string.Template.substitute`, applied to the
matches in order: a placeholder looks its variable up in the mapping and
raises `KeyError` on a missing variable; an `invalid` match raises the
`Invalid placeholder` `ValueError`. -/
def convertItems (f : String → Option String) : List TItem → Except PyErr String
  | [] => .ok ""
  | .lit c :: rest => (convertItems f rest).map (fun s => String.mk [c] ++ s)
  | .escaped :: rest => (convertItems f rest).map (fun s => "$" ++ s)
  | .placeholder n :: rest =>
    match f n with
    | some v => (convertItems f rest).map (fun s => v ++ s)
    | none => .error (.keyError n)
  | .invalid :: _ => .error .invalidPlaceholder

/-- `string.Template.substitute(mapping)` for a template given as a character
list: regex scan, then conversion of each match. -/
def substTemplate (f : String → Option String) (cs : List Char) : Except PyErr String :=
  convertItems f (lexTmpl cs)

/-- The placeholder variables of a template, in scanning order. -/
def itemVars : List TItem → List String
  | [] => []
  | .placeholder n :: rest => n :: itemVars rest
  | _ :: rest => itemVars rest

/-- The placeholder variables of a template string. -/
def tmplVars (cs : List Char) : List String :=
  itemVars (lexTmpl cs)

/-- A template whose placeholder grammar is valid: its scan has no `invalid`
match. -/
def wellFormedTmpl (cs : List Char) : Bool :=
  !(lexTmpl cs).any (· = .invalid)

theorem convertItems_keyError {f : String → Option String} :
    ∀ {items : List TItem} {v : String},
      convertItems f items = .error (.keyError v) →
      v ∈ itemVars items ∧ f v = none := by
  intro items
  induction items with
  | nil => intro v h; simp [convertItems] at h
  | cons it rest ih =>
    intro v h
    match it with
    | .lit c =>
      simp only [convertItems] at h
      cases hr : convertItems f rest with
      | ok s => rw [hr] at h; simp [Except.map] at h
      | error e =>
        rw [hr] at h
        simp [Except.map] at h
        subst h
        have := ih hr
        exact ⟨by simp [itemVars, this.1], this.2⟩
    | .escaped =>
      simp only [convertItems] at h
      cases hr : convertItems f rest with
      | ok s => rw [hr] at h; simp [Except.map] at h
      | error e =>
        rw [hr] at h
        simp [Except.map] at h
        subst h
        have := ih hr
        exact ⟨by simp [itemVars, this.1], this.2⟩
    | .placeholder n =>
      simp only [convertItems] at h
      cases hf : f n with
      | some s =>
        rw [hf] at h
        cases hr : convertItems f rest with
        | ok s' => rw [hr] at h; simp [Except.map] at h
        | error e =>
          rw [hr] at h
          simp [Except.map] at h
          subst h
          have := ih hr
          exact ⟨by simp [itemVars, this.1], this.2⟩
      | none =>
        rw [hf] at h
        simp at h
        subst h
        exact ⟨by simp [itemVars], hf⟩
    | .invalid => simp [convertItems] at h

theorem convertItems_invalidPlaceholder {f : String → Option String} :
    ∀ {items : List TItem},
      convertItems f items = .error .invalidPlaceholder →
      TItem.invalid ∈ items := by
  intro items
  induction items with
  | nil => intro h; simp [convertItems] at h
  | cons it rest ih =>
    intro h
    match it with
    | .lit c =>
      simp only [convertItems] at h
      cases hr : convertItems f rest with
      | ok s => rw [hr] at h; simp [Except.map] at h
      | error e =>
        rw [hr] at h
        simp [Except.map] at h
        subst h
        exact List.mem_cons_of_mem _ (ih hr)
    | .escaped =>
      simp only [convertItems] at h
      cases hr : convertItems f rest with
      | ok s => rw [hr] at h; simp [Except.map] at h
      | error e =>
        rw [hr] at h
        simp [Except.map] at h
        subst h
        exact List.mem_cons_of_mem _ (ih hr)
    | .placeholder n =>
      simp only [convertItems] at h
      cases hf : f n with
      | some s =>
        rw [hf] at h
        cases hr : convertItems f rest with
        | ok s' => rw [hr] at h; simp [Except.map] at h
        | error e =>
          rw [hr] at h
          simp [Except.map] at h
          subst h
          exact List.mem_cons_of_mem _ (ih hr)
      | none => rw [hf] at h; simp at h
    | .invalid => simp

theorem convertItems_ok_inv {f : String → Option String} :
    ∀ {items : List TItem} {s : String},
      convertItems f items = .ok s →
      TItem.invalid ∉ items ∧ ∀ v ∈ itemVars items, ∃ x, f v = some x := by
  intro items
  induction items with
  | nil => intro s _; simp [itemVars]
  | cons it rest ih =>
    intro s h
    match it with
    | .lit c =>
      simp only [convertItems] at h
      cases hr : convertItems f rest with
      | ok s' =>
        obtain ⟨h1, h2⟩ := ih hr
        exact ⟨by simp [h1], by simpa [itemVars] using h2⟩
      | error e => rw [hr] at h; simp [Except.map] at h
    | .escaped =>
      simp only [convertItems] at h
      cases hr : convertItems f rest with
      | ok s' =>
        obtain ⟨h1, h2⟩ := ih hr
        exact ⟨by simp [h1], by simpa [itemVars] using h2⟩
      | error e => rw [hr] at h; simp [Except.map] at h
    | .placeholder n =>
      simp only [convertItems] at h
      cases hf : f n with
      | some x =>
        rw [hf] at h
        cases hr : convertItems f rest with
        | ok s' =>
          obtain ⟨h1, h2⟩ := ih hr
          refine ⟨by simp [h1], ?_⟩
          intro v hv
          simp [itemVars] at hv
          rcases hv with rfl | hv
          · exact ⟨x, hf⟩
          · exact h2 v hv
        | error e => rw [hr] at h; simp [Except.map] at h
      | none => rw [hf] at h; simp at h
    | .invalid => simp [convertItems] at h

theorem convertItems_agree {f g : String → Option String} :
    ∀ {items : List TItem} {s : String},
      convertItems f items = .ok s →
      (∀ v ∈ itemVars items, g v = f v) →
      convertItems g items = .ok s := by
  intro items
  induction items with
  | nil => intro s h _; simpa [convertItems] using h
  | cons it rest ih =>
    intro s h hag
    match it with
    | .lit c =>
      simp only [convertItems] at h ⊢
      cases hr : convertItems f rest with
      | ok s' =>
        rw [hr] at h
        rw [ih hr (by simpa [itemVars] using hag)]
        simpa using h
      | error e => rw [hr] at h; simp [Except.map] at h
    | .escaped =>
      simp only [convertItems] at h ⊢
      cases hr : convertItems f rest with
      | ok s' =>
        rw [hr] at h
        rw [ih hr (by simpa [itemVars] using hag)]
        simpa using h
      | error e => rw [hr] at h; simp [Except.map] at h
    | .placeholder n =>
      simp only [convertItems] at h ⊢
      cases hf : f n with
      | some x =>
        rw [hf] at h
        have hgn : g n = some x := by
          rw [hag n (by simp [itemVars])]; exact hf
        rw [hgn]
        cases hr : convertItems f rest with
        | ok s' =>
          rw [hr] at h
          have hag' : ∀ v ∈ itemVars rest, g v = f v := by
            intro v hv; exact hag v (by simp [itemVars, hv])
          rw [ih hr hag']
          simpa using h
        | error e => rw [hr] at h; simp [Except.map] at h
      | none => rw [hf] at h; simp at h
    | .invalid => simp [convertItems] at h

theorem convertItems_total_ok {f : String → Option String} :
    ∀ {items : List TItem},
      TItem.invalid ∉ items →
      (∀ v ∈ itemVars items, ∃ x, f v = some x) →
      ∃ s, convertItems f items = .ok s := by
  intro items
  induction items with
  | nil => intro _ _; exact ⟨"", rfl⟩
  | cons it rest ih =>
    intro hni hv
    match it with
    | .lit c =>
      obtain ⟨s, hs⟩ := ih (by simp at hni; simp [hni]) (by simpa [itemVars] using hv)
      exact ⟨String.mk [c] ++ s, by simp [convertItems, hs, Except.map]⟩
    | .escaped =>
      obtain ⟨s, hs⟩ := ih (by simp at hni; simp [hni]) (by simpa [itemVars] using hv)
      exact ⟨"$" ++ s, by simp [convertItems, hs, Except.map]⟩
    | .placeholder n =>
      obtain ⟨x, hx⟩ := hv n (by simp [itemVars])
      obtain ⟨s, hs⟩ := ih (by simp at hni; simp [hni])
        (by intro v hvv; exact hv v (by simp [itemVars, hvv]))
      exact ⟨x ++ s, by simp [convertItems, hx, hs, Except.map]⟩
    | .invalid => simp at hni

/-- First-occurrence lookup in a string-to-string mapping. -/
def slookup (k : String) : List (String × String) → Option String
  | [] => none
  | (k', v) :: rest => if k' = k then some v else slookup k rest

/-- Python `d[k] = v` on a string-to-string mapping. -/
def supdate (m : List (String × String)) (k v : String) : List (String × String) :=
  match m with
  | [] => [(k, v)]
  | (k', v') :: rest => if k' = k then (k, v) :: rest else (k', v') :: supdate rest k v

theorem slookup_supdate_self (m : List (String × String)) (k v : String) :
    slookup k (supdate m k v) = some v := by
  induction m with
  | nil => simp [supdate, slookup]
  | cons kv rest ih =>
    obtain ⟨k', v'⟩ := kv
    simp only [supdate]
    by_cases hk : k' = k
    · simp [hk, slookup]
    · simp [hk, slookup, ih]

theorem slookup_supdate_ne (m : List (String × String)) (k v w : String) (hw : w ≠ k) :
    slookup w (supdate m k v) = slookup w m := by
  induction m with
  | nil => simp [supdate, slookup, Ne.symm hw]
  | cons kv rest ih =>
    obtain ⟨k', v'⟩ := kv
    simp only [supdate]
    by_cases hk : k' = k
    · subst hk
      simp [slookup, Ne.symm hw]
    · simp only [if_neg hk, slookup]
      by_cases hk' : k' = w
      · simp [hk']
      · simp [hk', ih]

theorem length_filter_mono {l : List String} {p q : String → Bool}
    (hpq : ∀ x, q x = true → p x = true) :
    (l.filter q).length ≤ (l.filter p).length := by
  induction l with
  | nil => simp
  | cons x rest ih =>
    simp only [List.filter_cons]
    cases hq : q x with
    | true =>
      simp only [hq, hpq x hq, if_true]
      simpa using ih
    | false =>
      simp only [hq, Bool.false_eq_true, if_false]
      cases hp : p x with
      | true =>
        simp only [hp, if_true, List.length_cons]
        exact Nat.le_trans ih (Nat.le_succ _)
      | false =>
        simp only [hp, Bool.false_eq_true, if_false]
        exact ih

theorem length_filter_lt {l : List String} {p q : String → Bool}
    (hpq : ∀ x, q x = true → p x = true) {v : String}
    (hv : v ∈ l) (hpv : p v = true) (hqv : q v = false) :
    (l.filter q).length < (l.filter p).length := by
  induction l with
  | nil => simp at hv
  | cons x rest ih =>
    simp only [List.filter_cons]
    rcases List.mem_cons.mp hv with rfl | hv'
    · simp only [hqv, Bool.false_eq_true, if_false, hpv, if_true, List.length_cons]
      exact Nat.lt_succ_of_le (length_filter_mono hpq)
    · have hrest := ih hv'
      cases hq : q x with
      | true =>
        simp only [hq, hpq x hq, if_true, List.length_cons]
        omega
      | false =>
        simp only [hq, Bool.false_eq_true, if_false]
        cases hp : p x with
        | true =>
          simp only [hp, if_true, List.length_cons]
          omega
        | false =>
          simp only [hp, Bool.false_eq_true, if_false]
          exact hrest

/-- The `while True` retry loop of `OptionalTemplate.substitute`: try the
strict substitution against the (extended) mapping; on `KeyError` bind the
missing variable to the empty string in the private mapping copy and retry.
Any other exception (e.g. the `Invalid placeholder` `ValueError`) escapes.
Termination: each retry binds a previously unresolved template variable, so
the set of unresolved variables strictly shrinks. -/
def optLoop (cs : List Char) (ext : List (String × String)) : Except PyErr String :=
  match h : substTemplate (fun v => slookup v ext) cs with
  | .ok s => .ok s
  | .error (.keyError v) => optLoop cs (supdate ext v "")
  | .error (.typeError m) => .error (.typeError m)
  | .error .invalidPlaceholder => .error .invalidPlaceholder
  | .error (.invalidTemplateString t) => .error (.invalidTemplateString t)
  | .error (.invalidConfig m) => .error (.invalidConfig m)
  | .error (.runtimeError m) => .error (.runtimeError m)
termination_by
  ((tmplVars cs).filter (fun v => (slookup v ext).isNone)).length
decreasing_by
  have hkv := convertItems_keyError (f := fun v => slookup v ext) h
  obtain ⟨hmem, hnone⟩ := hkv
  exact length_filter_lt
    (p := fun w => (slookup w ext).isNone)
    (q := fun w => (slookup w (supdate ext v "")).isNone)
    (by
      intro x hx
      by_cases hxv : x = v
      · subst hxv
        simp [slookup_supdate_self] at hx
      · simp only [slookup_supdate_ne ext v "" x hxv] at hx
        simpa using hx)
    hmem
    (by simp [hnone])
    (by simp [slookup_supdate_self])

/-- `OptionalTemplate.substitute(mappings)` from `labgrid/util/yaml.py`:
runs the retry loop on a private copy of the caller's mapping (the caller's
mapping itself is never mutated). -/
def optionalSubstitute (tmpl : String) (mappings : List (String × String)) :
    Except PyErr String :=
  optLoop tmpl.data mappings

mutual

/-- `resolve_templates(data, mapping)` from `labgrid/util/yaml.py`: walks a
mapping or sequence (any other argument raises `TypeError`), substituting
every `OptionalTemplate` value with its optional substitution and every
strict `Template` value with its strict substitution — wrapping a
`ValueError` from the latter as `ValueError(f"Invalid template string
'{val.template}'")` while letting `KeyError` propagate — and recursing into
values that are themselves sequences or mappings.  The Python function
mutates in place; the embedding returns the rewritten tree. -/
def resolve_templates (m : List (String × String)) : Node → Except PyErr Node
  | .seq xs => (rtList m xs).map Node.seq
  | .map kvs => (rtMap m kvs).map Node.map
  | d => .error (.typeError ("Expected list or dict, got " ++ pyType d))

/-- The per-value body of `resolve_templates`'s loop. -/
def rtItem (m : List (String × String)) : Node → Except PyErr Node
  | .otmpl t => (optionalSubstitute t m).map Node.str
  | .tmpl t =>
    match substTemplate (fun v => slookup v m) t.data with
    | .ok s => .ok (.str s)
    | .error .invalidPlaceholder => .error (.invalidTemplateString t)
    | .error e => .error e
  | .seq xs => (rtList m xs).map Node.seq
  | .map kvs => (rtMap m kvs).map Node.map
  | v => .ok v
termination_by d => sizeOf d
decreasing_by
  all_goals simp_wf <;> omega

/-- `resolve_templates` over the items of a sequence. -/
def rtList (m : List (String × String)) : List Node → Except PyErr (List Node)
  | [] => .ok []
  | x :: xs => (rtItem m x).bind fun y => (rtList m xs).map fun ys => y :: ys
termination_by l => sizeOf l
decreasing_by
  all_goals simp_wf <;> omega

/-- `resolve_templates` over the entries of a mapping. -/
def rtMap (m : List (String × String)) :
    List (String × Node) → Except PyErr (List (String × Node))
  | [] => .ok []
  | (k, v) :: rest => (rtItem m v).bind fun v' => (rtMap m rest).map fun r => (k, v') :: r
termination_by l => sizeOf l
decreasing_by
  all_goals simp_wf <;> omega

end

theorem alookup_sizeOf :
    ∀ {m : List (String × Node)} {k : String} {v : Node},
      alookup k m = some v → sizeOf v < sizeOf m := by
  intro m
  induction m with
  | nil => intro k v h; simp [alookup] at h
  | cons kv rest ih =>
    intro k v h
    obtain ⟨k', v'⟩ := kv
    simp only [alookup] at h
    split at h
    · cases h
      simp
      omega
    · have := ih h
      simp
      omega

mutual

/-- Whether `k` is the mapping's last key in insertion order.  The loaded
mappings are `OrderedDict`s, and popping the key just yielded by an
`OrderedDict` items iterator lets the iteration finish cleanly only when
that key was the last one; resuming the iterator after popping an earlier
key raises `RuntimeError("OrderedDict mutated during iteration")`. -/
def lastKeyIs (k : String) (m : List (String × Node)) : Bool :=
  match m.getLast? with
  | some (k', _) => k' = k
  | none => false

/-- `resolve_includes(data)` from `labgrid/util/yaml.py`: a sequence is
returned as is (its integer indices never equal `'includes'`); a mapping
without an `includes` key is returned as is; a mapping with an `includes`
key pops that key mid-iteration of `data.items()` and folds the listed
fragments into the document — recursively resolving each fragment, then
merging it as the base under the running accumulator.  Errors raised
inside the loop body propagate: an `includes` value that is not iterable
raises `TypeError`; iterating a non-empty dict or string leads the
recursive call to raise
`TypeError("Expected list or dict, got <class 'str'>")` on the first key
or character; fragment resolution and merge errors surface as is.  When
the body completes, the `for` loop resumes the items iterator of the
now-mutated `OrderedDict`: only when `includes` was the mapping's last key
does the iteration end cleanly with the merged document — otherwise
CPython raises `RuntimeError("OrderedDict mutated during iteration")`.
Any other argument raises
`TypeError(f"Expected list or dict, got {type(data)}")`. -/
def resolve_includes : Node → Except PyErr Node
  | .seq xs => .ok (.seq xs)
  | .map m =>
    match h : alookup "includes" m with
    | none => .ok (.map m)
    | some (.seq incs) =>
      (resolveChain incs (.map (eraseKey "includes" m))).bind fun r =>
        if lastKeyIs "includes" m then .ok r
        else .error (.runtimeError "OrderedDict mutated during iteration")
    | some (.tuple incs) =>
      (resolveChain incs (.map (eraseKey "includes" m))).bind fun r =>
        if lastKeyIs "includes" m then .ok r
        else .error (.runtimeError "OrderedDict mutated during iteration")
    | some (.map []) =>
      if lastKeyIs "includes" m then .ok (.map (eraseKey "includes" m))
      else .error (.runtimeError "OrderedDict mutated during iteration")
    | some (.map (_ :: _)) => .error (.typeError "Expected list or dict, got <class 'str'>")
    | some (.str s) =>
      if s.isEmpty then
        if lastKeyIs "includes" m then .ok (.map (eraseKey "includes" m))
        else .error (.runtimeError "OrderedDict mutated during iteration")
      else .error (.typeError "Expected list or dict, got <class 'str'>")
    | some .null => .error (.typeError "'NoneType' object is not iterable")
    | some (.bool _) => .error (.typeError "'bool' object is not iterable")
    | some (.int _) => .error (.typeError "'int' object is not iterable")
    | some (.float _) => .error (.typeError "'float' object is not iterable")
    | some (.tmpl _) => .error (.typeError "'Template' object is not iterable")
    | some (.otmpl _) => .error (.typeError "'OptionalTemplate' object is not iterable")
    | some (.obj _) => .error (.typeError "'object' object is not iterable")
  | d => .error (.typeError ("Expected list or dict, got " ++ pyType d))
termination_by d => sizeOf d
decreasing_by
  all_goals simp_wf
  · have := alookup_sizeOf h
    simp at this
    omega
  · have := alookup_sizeOf h
    simp at this
    omega

/-- The `for l in val` loop of `resolve_includes`: resolve each include
fragment, then `data = data_merge(l, data)` with the fragment as the merge
base and the accumulator as the override. -/
def resolveChain : List Node → Node → Except PyErr Node
  | [], acc => .ok acc
  | inc :: rest, acc =>
    (resolve_includes inc).bind fun r =>
      (data_merge r acc).bind fun acc' => resolveChain rest acc'
termination_by l _ => sizeOf l
decreasing_by
  all_goals simp_wf <;> omega

end

/-- Modelled from the spec: the `Config` facade (its module is not part of
the excerpted source; only `tests/test_config.py` exercises it).
`get_target_option(target, option)` looks up
`data["targets"][target]["options"][option]`, failing with a `KeyError`
carrying a "No target ..." message when the target is absent from `targets`
and with a "No option ..." message when the option is absent (including
when the target carries no `options` mapping at all). -/
def getTargetOption (data : List (String × Node)) (target option : String) :
    Except PyErr Node :=
  let targets := match alookup "targets" data with
    | some (.map ts) => ts
    | _ => []
  match alookup target targets with
  | none => .error (.keyError ("No target '" ++ target ++ "' found"))
  | some tnode =>
    let opts := match tnode with
      | .map tm =>
        match alookup "options" tm with
        | some (.map os) => os
        | _ => []
      | _ => []
    match alookup option opts with
    | none => .error (.keyError ("No option '" ++ option ++ "' found"))
    | some v => .ok v

/-- Modelled from the spec: `Config.set_target_option(target, option, value)`
(its module is not part of the excerpted source).  It creates the
intermediate `options` mapping under the target when absent, performs no
existence check, always succeeds, and mutates `data` in place; the embedding
returns the updated tree. -/
def setTargetOption (data : List (String × Node)) (target option : String)
    (value : Node) : List (String × Node) :=
  let targets := match alookup "targets" data with
    | some (.map ts) => ts
    | _ => []
  let tnode := match alookup target targets with
    | some (.map tm) => tm
    | _ => []
  let opts := match alookup "options" tnode with
    | some (.map os) => os
    | _ => []
  pyUpdate data "targets"
    (.map (pyUpdate targets target
      (.map (pyUpdate tnode "options"
        (.map (pyUpdate opts option value))))))

theorem alookup_pyUpdate_self (m : List (String × Node)) (k : String) (v : Node) :
    alookup k (pyUpdate m k v) = some v := by
  induction m with
  | nil => simp [pyUpdate, alookup]
  | cons kv rest ih =>
    obtain ⟨k', v'⟩ := kv
    simp only [pyUpdate]
    by_cases hk : k' = k
    · simp [hk, alookup]
    · simp [hk, alookup, ih]

theorem alookup_pyUpdate_ne (m : List (String × Node)) (k : String) (v : Node)
    (w : String) (hw : w ≠ k) :
    alookup w (pyUpdate m k v) = alookup w m := by
  induction m with
  | nil => simp [pyUpdate, alookup, Ne.symm hw]
  | cons kv rest ih =>
    obtain ⟨k', v'⟩ := kv
    simp only [pyUpdate]
    by_cases hk : k' = k
    · subst hk
      simp [alookup, Ne.symm hw]
    · simp only [if_neg hk, alookup]
      by_cases hk' : k' = w
      · simp [hk']
      · simp [hk', ih]

theorem alookup_cons_ne {k0 k : String} {v0 : Node} {rest : List (String × Node)}
    (hk : k ≠ k0) : alookup k ((k0, v0) :: rest) = alookup k rest := by
  simp only [alookup]
  rw [if_neg (fun hh => hk hh.symm)]

theorem keysNodup_pyUpdate {m : List (String × Node)} {k : String} {v : Node}
    (h : keysNodup m = true) : keysNodup (pyUpdate m k v) = true := by
  induction m with
  | nil => simp [pyUpdate, keysNodup, alookup]
  | cons kv rest ih =>
    obtain ⟨k', v'⟩ := kv
    simp only [keysNodup, Bool.and_eq_true, Option.isNone_iff_eq_none] at h
    simp only [pyUpdate]
    by_cases hk : k' = k
    · subst hk
      simp only [keysNodup, Bool.and_eq_true, Option.isNone_iff_eq_none]
      exact ⟨h.1, h.2⟩
    · rw [if_neg hk]
      simp only [keysNodup, Bool.and_eq_true, Option.isNone_iff_eq_none]
      refine ⟨?_, ih h.2⟩
      rw [alookup_pyUpdate_ne rest k v k' (fun hh => hk hh)]
      exact h.1

theorem keysNodup_mergeInto :
    ∀ {b a r : List (String × Node)},
      keysNodup a = true → mergeInto a b = .ok r → keysNodup r = true := by
  intro b
  induction b with
  | nil =>
    intro a r ha h
    simp only [mergeInto] at h
    cases h
    exact ha
  | cons kv rest ih =>
    intro a r ha h
    obtain ⟨k0, vb0⟩ := kv
    simp only [mergeInto] at h
    split at h
    · rename_i va0 hl
      cases hm : data_merge va0 vb0 with
      | ok v0 =>
        rw [hm] at h
        simp only [Except.bind] at h
        exact ih (keysNodup_pyUpdate ha) h
      | error e => rw [hm] at h; simp [Except.bind] at h
    · exact ih (keysNodup_pyUpdate ha) h

theorem mergeInto_lookup :
    ∀ {b a r : List (String × Node)},
      keysNodup b = true →
      mergeInto a b = .ok r →
      ∀ k : String,
        (alookup k b = none → alookup k r = alookup k a) ∧
        (∀ vb, alookup k b = some vb → alookup k a = none → alookup k r = some vb) ∧
        (∀ va vb, alookup k a = some va → alookup k b = some vb →
          ∃ v, data_merge va vb = .ok v ∧ alookup k r = some v) := by
  intro b
  induction b with
  | nil =>
    intro a r _ h k
    simp only [mergeInto] at h
    cases h
    exact ⟨fun _ => rfl, fun vb hvb => by simp [alookup] at hvb,
      fun va vb _ hvb => by simp [alookup] at hvb⟩
  | cons kv rest ih =>
    intro a r hnd h k
    obtain ⟨k0, vb0⟩ := kv
    simp only [keysNodup, Bool.and_eq_true, Option.isNone_iff_eq_none] at hnd
    obtain ⟨hk0rest, hnd'⟩ := hnd
    simp only [mergeInto] at h
    split at h
    · rename_i va0 hl
      cases hm : data_merge va0 vb0 with
      | error e => rw [hm] at h; simp [Except.bind] at h
      | ok v0 =>
        rw [hm] at h
        simp only [Except.bind] at h
        have IH := ih hnd' h
        by_cases hk : k = k0
        · subst hk
          have hr : alookup k r = alookup k (pyUpdate a k v0) := (IH k).1 hk0rest
          rw [alookup_pyUpdate_self] at hr
          refine ⟨?_, ?_, ?_⟩
          · intro hnone; simp [alookup] at hnone
          · intro vb hvb hanone; rw [hanone] at hl; cases hl
          · intro va vb hva hvb
            simp only [alookup, if_pos rfl] at hvb
            cases hvb
            rw [hva] at hl
            cases hl
            exact ⟨v0, hm, hr⟩
        · have hb := @alookup_cons_ne k0 k vb0 rest hk
          have ha' : alookup k (pyUpdate a k0 v0) = alookup k a :=
            alookup_pyUpdate_ne a k0 v0 k hk
          refine ⟨?_, ?_, ?_⟩
          · intro hnone
            rw [hb] at hnone
            rw [(IH k).1 hnone, ha']
          · intro vb hvb hanone
            rw [hb] at hvb
            exact (IH k).2.1 vb hvb (by rw [ha']; exact hanone)
          · intro va vb hva hvb
            rw [hb] at hvb
            exact (IH k).2.2 va vb (by rw [ha']; exact hva) hvb
    · rename_i hl
      have IH := ih hnd' h
      by_cases hk : k = k0
      · subst hk
        have hr : alookup k r = alookup k (pyUpdate a k vb0) := (IH k).1 hk0rest
        rw [alookup_pyUpdate_self] at hr
        refine ⟨?_, ?_, ?_⟩
        · intro hnone; simp [alookup] at hnone
        · intro vb hvb _
          simp only [alookup, if_pos rfl] at hvb
          cases hvb
          exact hr
        · intro va vb hva hvb
          rw [hva] at hl; cases hl
      · have hb := @alookup_cons_ne k0 k vb0 rest hk
        have ha' : alookup k (pyUpdate a k0 vb0) = alookup k a :=
          alookup_pyUpdate_ne a k0 vb0 k hk
        refine ⟨?_, ?_, ?_⟩
        · intro hnone
          rw [hb] at hnone
          rw [(IH k).1 hnone, ha']
        · intro vb hvb hanone
          rw [hb] at hvb
          exact (IH k).2.1 vb hvb (by rw [ha']; exact hanone)
        · intro va vb hva hvb
          rw [hb] at hvb
          exact (IH k).2.2 va vb (by rw [ha']; exact hva) hvb

theorem alookup_eraseKey_ne {m : List (String × Node)} {j k : String}
    (hk : k ≠ j) : alookup k (eraseKey j m) = alookup k m := by
  induction m with
  | nil => rfl
  | cons kv rest ih =>
    obtain ⟨k', v'⟩ := kv
    simp only [eraseKey]
    by_cases hj : k' = j
    · subst hj
      rw [if_pos rfl, alookup_cons_ne hk]
    · rw [if_neg hj]
      simp only [alookup]
      by_cases hk' : k' = k
      · simp [hk']
      · simp [hk', ih]

theorem alookup_eraseKey_of_none {m : List (String × Node)} {j k : String}
    (h : alookup k m = none) : alookup k (eraseKey j m) = none := by
  induction m with
  | nil => rfl
  | cons kv rest ih =>
    obtain ⟨k', v'⟩ := kv
    simp only [alookup] at h
    split at h
    · cases h
    · rename_i hk'
      simp only [eraseKey]
      by_cases hj : k' = j
      · rw [if_pos hj]
        exact h
      · rw [if_neg hj]
        simp only [alookup]
        rw [if_neg hk']
        exact ih h

theorem keysNodup_eraseKey {m : List (String × Node)} {j : String}
    (h : keysNodup m = true) : keysNodup (eraseKey j m) = true := by
  induction m with
  | nil => rfl
  | cons kv rest ih =>
    obtain ⟨k', v'⟩ := kv
    simp only [keysNodup, Bool.and_eq_true, Option.isNone_iff_eq_none] at h
    simp only [eraseKey]
    by_cases hj : k' = j
    · rw [if_pos hj]
      exact h.2
    · rw [if_neg hj]
      simp only [keysNodup, Bool.and_eq_true, Option.isNone_iff_eq_none]
      exact ⟨alookup_eraseKey_of_none h.1, ih h.2⟩

/-- The operand combinations on which `data_merge` takes its `else` branch:
a mapping base with a non-mapping override, or a base that is neither
mapping, sequence, `None` nor primitive scalar (tuple, template, optional
template, opaque object). -/
def unsupportedPair : Node → Node → Bool
  | .map _, b => (asMap b).isNone
  | .seq _, _ => false
  | .null, _ => false
  | .bool _, _ => false
  | .int _, _ => false
  | .float _, _ => false
  | .str _, _ => false
  | _, _ => true

theorem except_map_error {α β : Type} {f : α → β} {x : Except PyErr α} {e : PyErr} :
    x.map f = .error e ↔ x = .error e := by
  cases x <;> simp [Except.map]

theorem node_sizeOf_pos (b : Node) : 1 ≤ sizeOf b := by
  cases b <;> simp <;> omega

theorem dm_error_class : ∀ n : Nat,
    (∀ (a b : Node) (e : PyErr), sizeOf b ≤ n → data_merge a b = .error e →
      ∃ a' b', unsupportedPair a' b' = true ∧ e = .invalidConfig (unsupMsg b' a')) ∧
    (∀ (a l : List (String × Node)) (e : PyErr), sizeOf l ≤ n → mergeInto a l = .error e →
      ∃ a' b', unsupportedPair a' b' = true ∧ e = .invalidConfig (unsupMsg b' a')) := by
  intro n
  induction n with
  | zero =>
    constructor
    · intro a b e hb
      have := node_sizeOf_pos b
      omega
    · intro a l e hl
      cases l with
      | nil => intro h; simp [mergeInto] at h
      | cons x rest => simp at hl <;> omega
  | succ n ih =>
    constructor
    · intro a b e hb h
      cases a with
      | map am =>
        simp only [data_merge] at h
        split at h
        · rename_i bm hbm
          rw [except_map_error] at h
          have hsz := asMap_sizeOf hbm
          exact ih.2 am bm e (by omega) h
        · rename_i hbm
          cases h
          exact ⟨.map am, b, by simp [unsupportedPair, hbm], rfl⟩
      | seq xs =>
        simp only [data_merge] at h
        split at h <;> cases h
      | null => simp [data_merge] at h
      | bool x => simp [data_merge] at h
      | int x => simp [data_merge] at h
      | float x => simp [data_merge] at h
      | str x => simp [data_merge] at h
      | tuple xs =>
        simp only [data_merge] at h
        cases h
        exact ⟨.tuple xs, b, by simp [unsupportedPair], rfl⟩
      | tmpl t =>
        simp only [data_merge] at h
        cases h
        exact ⟨.tmpl t, b, by simp [unsupportedPair], rfl⟩
      | otmpl t =>
        simp only [data_merge] at h
        cases h
        exact ⟨.otmpl t, b, by simp [unsupportedPair], rfl⟩
      | obj x =>
        simp only [data_merge] at h
        cases h
        exact ⟨.obj x, b, by simp [unsupportedPair], rfl⟩
    · intro a l e hl h
      cases l with
      | nil => simp [mergeInto] at h
      | cons kv rest =>
        obtain ⟨k0, vb0⟩ := kv
        simp only [mergeInto] at h
        split at h
        · rename_i va0 hlk
          cases hm : data_merge va0 vb0 with
          | error e' =>
            rw [hm] at h
            simp only [Except.bind] at h
            cases h
            have hsz : sizeOf vb0 ≤ n := by simp at hl; omega
            exact ih.1 va0 vb0 _ hsz hm
          | ok v0 =>
            rw [hm] at h
            simp only [Except.bind] at h
            have hsz : sizeOf rest ≤ n := by simp at hl; omega
            exact ih.2 (pyUpdate a k0 v0) rest e hsz h
        · have hsz : sizeOf rest ≤ n := by simp at hl; omega
          exact ih.2 (pyUpdate a k0 vb0) rest e hsz h

/-- C3, counterexample: the claim says `data_merge` with an immutable
sequence (tuple) base returns the override and does not fail; on the code,
merging the override `5` into the tuple base `(1, 2)` raises
`InvalidConfigError` naming both operand types instead of returning `5`. -/
theorem C3_counterexample :
    data_merge (.tuple [.int 1, .int 2]) (.int 5) =
      .error (.invalidConfig
        "Datatype not supported \"<class 'int'>\" into \"<class 'tuple'>\"") ∧
    data_merge (.tuple [.int 1, .int 2]) (.int 5) ≠ .ok (.int 5) := by
  constructor
  · simp only [data_merge]
    simp [unsupMsg, pyType]
  · simp [data_merge]

/-- C3, amended: for every override value `v`, `data_merge` applied with an
immutable sequence (tuple) base raises the datatype-not-supported
configuration error naming both operand types; the tuple is never
concatenated, but the merge fails instead of returning `v`. -/
theorem C3_amended_tuple_base_raises (xs : List Node) (v : Node) :
    data_merge (.tuple xs) v = .error (.invalidConfig (unsupMsg v (.tuple xs))) := by
  simp [data_merge]

/-- C4, counterexample: the claim says merging a mapping (override) into a
sequence (base) raises the "datatype not supported" error; on the code this
combination does not raise — the mapping is appended to the sequence as a
single trailing item. -/
theorem C4_counterexample :
    data_merge (.seq [.int 1]) (.map [("k", .int 2)]) =
      .ok (.seq [.int 1, .map [("k", .int 2)]]) := by
  simp [data_merge, asSeq]

/-- C4, amended: `data_merge` fails with the unsupported-merge configuration
error, whose message names both operand types, exactly on the unsupported
operand combinations — a mapping base with a non-mapping override, or a base
that is neither mapping, sequence, null nor primitive scalar (e.g. a tuple);
merging a mapping override into a sequence base is not such a combination:
it appends the mapping as a single trailing item instead of raising. -/
theorem C4_amended_unsupported_exact (a b : Node) :
    (unsupportedPair a b = true →
      data_merge a b = .error (.invalidConfig (unsupMsg b a))) ∧
    (∀ e, data_merge a b = .error e →
      ∃ a' b', unsupportedPair a' b' = true ∧ e = .invalidConfig (unsupMsg b' a')) ∧
    (∀ xs bm, a = .seq xs → b = .map bm →
      data_merge a b = .ok (.seq (xs ++ [.map bm]))) := by
  refine ⟨?_, ?_, ?_⟩
  · intro hu
    cases a with
    | map am =>
      simp only [unsupportedPair, Option.isNone_iff_eq_none] at hu
      simp only [data_merge]
      split
      · rename_i bm hbm
        rw [hu] at hbm
        cases hbm
      · rfl
    | seq xs => simp [unsupportedPair] at hu
    | null => simp [unsupportedPair] at hu
    | bool x => simp [unsupportedPair] at hu
    | int x => simp [unsupportedPair] at hu
    | float x => simp [unsupportedPair] at hu
    | str x => simp [unsupportedPair] at hu
    | tuple xs => simp [data_merge]
    | tmpl t => simp [data_merge]
    | otmpl t => simp [data_merge]
    | obj x => simp [data_merge]
  · intro e h
    exact (dm_error_class (sizeOf b)).1 a b e (Nat.le_refl _) h
  · rintro xs bm rfl rfl
    simp [data_merge, asSeq]

/-- C4, witness: the amended characterization applied at a tuple base with
an integer override (an unsupported pair) and at a sequence base with a
mapping override (a supported pair that appends). -/
theorem C4_witness :
    data_merge (.tuple []) (.int 0) =
      .error (.invalidConfig (unsupMsg (.int 0) (.tuple []))) ∧
    data_merge (.seq []) (.map []) = .ok (.seq [.map []]) := by
  constructor
  · exact (C4_amended_unsupported_exact (.tuple []) (.int 0)).1 (by simp [unsupportedPair])
  · exact (C4_amended_unsupported_exact (.seq []) (.map [])).2.2 [] [] rfl rfl

/-- C5: the case analysis of `data_merge`.  For mapping/mapping merges that
succeed, the result is a mapping whose value at each key is: the recursive
merge of the two values when the key is in both operands, the base's value
when only in the base, and the override's value when only in the override
(override keys absent from the base are copied in).  A sequence base
concatenates a sequence override and appends any other override.  A null or
primitive-scalar base is replaced by the override. -/
theorem C5_data_merge_cases :
    (∀ (a b : List (String × Node)) (r : Node), keysNodup b = true →
      data_merge (.map a) (.map b) = .ok r →
      ∃ rm, r = .map rm ∧ ∀ k : String,
        (alookup k b = none → alookup k rm = alookup k a) ∧
        (∀ vb, alookup k b = some vb → alookup k a = none → alookup k rm = some vb) ∧
        (∀ va vb, alookup k a = some va → alookup k b = some vb →
          ∃ v, data_merge va vb = .ok v ∧ alookup k rm = some v)) ∧
    (∀ xs ys, data_merge (.seq xs) (.seq ys) = .ok (.seq (xs ++ ys))) ∧
    (∀ xs (b : Node), asSeq b = none → data_merge (.seq xs) b = .ok (.seq (xs ++ [b]))) ∧
    (∀ (s b : Node), isPyScalar s = true → data_merge s b = .ok b) := by
  refine ⟨?_, ?_, ?_, ?_⟩
  · intro a b r hnd h
    simp only [data_merge, asMap] at h
    cases hm : mergeInto a b with
    | error e => rw [hm] at h; simp [Except.map] at h
    | ok rm =>
      rw [hm] at h
      simp only [Except.map] at h
      cases h
      exact ⟨rm, rfl, mergeInto_lookup hnd hm⟩
  · intro xs ys
    simp [data_merge, asSeq]
  · intro xs b hb
    simp only [data_merge]
    rw [hb]
  · intro s b hs
    cases s <;> simp [isPyScalar] at hs <;> simp [data_merge]

/-- C5, witness: the mapping clause applied to `{"x": 1}` merged with the
override `{"x": 2, "z": 9}` (shared key recursively merged, new key copied
in), plus concrete instances of the three remaining clauses. -/
theorem C5_witness :
    (∃ v, data_merge (.int 1) (.int 2) = .ok v ∧
      alookup "x" [("x", Node.int 2), ("z", Node.int 9)] = some v) ∧
    data_merge (.seq [.int 1]) (.seq [.int 2]) = .ok (.seq [.int 1, .int 2]) ∧
    data_merge (.seq [.int 1]) (.null) = .ok (.seq [.int 1, .null]) ∧
    data_merge (.str "s") (.int 7) = .ok (.int 7) := by
  refine ⟨?_, ?_, ?_, ?_⟩
  · obtain ⟨rm, hrm, hP⟩ := C5_data_merge_cases.1 [("x", Node.int 1)]
      [("x", Node.int 2), ("z", Node.int 9)] (.map [("x", Node.int 2), ("z", Node.int 9)])
      (by simp [keysNodup, alookup])
      (by simp [data_merge, asMap, mergeInto, alookup, pyUpdate, Except.bind, Except.map])
    obtain ⟨v, hv, hlk⟩ := (hP "x").2.2 (.int 1) (.int 2)
      (by simp [alookup]) (by simp [alookup])
    cases hrm
    exact ⟨v, hv, hlk⟩
  · exact C5_data_merge_cases.2.1 [.int 1] [.int 2]
  · exact C5_data_merge_cases.2.2.1 [.int 1] .null (by simp [asSeq])
  · exact C5_data_merge_cases.2.2.2 (.str "s") (.int 7) (by simp [isPyScalar])

theorem data_merge_scalar {s : Node} (b : Node) (hs : isPyScalar s = true) :
    data_merge s b = .ok b := by
  cases s <;> simp [isPyScalar] at hs <;> simp [data_merge]

theorem dm_map_map_ok {a b : List (String × Node)} {x : Node}
    (h : data_merge (.map a) (.map b) = .ok x) :
    ∃ m, mergeInto a b = .ok m ∧ x = .map m := by
  simp only [data_merge, asMap] at h
  cases hm : mergeInto a b with
  | error e => rw [hm] at h; simp [Except.map] at h
  | ok m =>
    rw [hm] at h
    simp only [Except.map] at h
    cases h
    exact ⟨m, rfl, rfl⟩

mutual

/-- Whether a tree contains an `includes` mapping key anywhere (used to
state that `resolve_includes` leaves nested `includes` keys unresolved). -/
def hasIncludesKey : Node → Bool
  | .map kvs => hikMap kvs
  | .seq xs => hikList xs
  | .tuple xs => hikList xs
  | _ => false
termination_by d => sizeOf d
decreasing_by
  all_goals simp_wf <;> omega

/-- `hasIncludesKey` over sequence items. -/
def hikList : List Node → Bool
  | [] => false
  | x :: xs => hasIncludesKey x || hikList xs
termination_by l => sizeOf l
decreasing_by
  all_goals simp_wf <;> omega

/-- `hasIncludesKey` over mapping entries. -/
def hikMap : List (String × Node) → Bool
  | [] => false
  | (k, v) :: rest => (k = "includes") || hasIncludesKey v || hikMap rest
termination_by l => sizeOf l
decreasing_by
  all_goals simp_wf <;> omega

end

theorem resolve_includes_seq_raw {m : List (String × Node)} {incs : List Node}
    (h : alookup "includes" m = some (.seq incs)) :
    resolve_includes (.map m) =
      (resolveChain incs (.map (eraseKey "includes" m))).bind (fun r =>
        if lastKeyIs "includes" m then .ok r
        else .error (.runtimeError "OrderedDict mutated during iteration")) := by
  simp only [resolve_includes]
  split
  all_goals rename_i heq
  all_goals rw [h] at heq
  all_goals first
    | (cases heq; rfl)
    | simp at heq

theorem resolve_includes_seq_eq {m : List (String × Node)} {incs : List Node}
    (h : alookup "includes" m = some (.seq incs))
    (hlast : lastKeyIs "includes" m = true) :
    resolve_includes (.map m) = resolveChain incs (.map (eraseKey "includes" m)) := by
  rw [resolve_includes_seq_raw h]
  cases hc : resolveChain incs (.map (eraseKey "includes" m)) with
  | error e => rfl
  | ok r => simp [Except.bind, hlast]

theorem resolve_includes_seq_not_last {m : List (String × Node)} {incs : List Node}
    {r : Node}
    (h : alookup "includes" m = some (.seq incs))
    (hlast : lastKeyIs "includes" m = false)
    (hok : resolveChain incs (.map (eraseKey "includes" m)) = .ok r) :
    resolve_includes (.map m) =
      .error (.runtimeError "OrderedDict mutated during iteration") := by
  rw [resolve_includes_seq_raw h, hok]
  simp [Except.bind, hlast]

theorem resolve_includes_none_eq {m : List (String × Node)}
    (h : alookup "includes" m = none) :
    resolve_includes (.map m) = .ok (.map m) := by
  simp only [resolve_includes]
  split
  all_goals rename_i heq
  all_goals rw [h] at heq
  all_goals first
    | rfl
    | simp at heq

/-- C1, amended: for a document `d` whose `includes` key binds the already-
resolved fragments `[A, B]` and is `d`'s last key, `resolve_includes` pops
the key and returns `merge(B, merge(A, d_without_includes))`; when
`includes` is not the last key, completing those merges is followed by
`RuntimeError("OrderedDict mutated during iteration")` from resuming the
items iterator of the popped mapping.  Whenever resolution does succeed,
provided the includes' values at a key are primitive scalars: a key
defined in `d` and in the includes resolves to `d`'s value, and a key
absent from `d` but defined in both `A` and `B` resolves to `A`'s (the
earlier include's) value. -/
theorem C1_amended_merge_precedence
    (d : List (String × Node)) (A B : Node)
    (hinc : alookup "includes" d = some (.seq [A, B]))
    (hA : resolve_includes A = .ok A)
    (hB : resolve_includes B = .ok B) :
    (lastKeyIs "includes" d = true →
      resolve_includes (.map d) =
        (data_merge A (.map (eraseKey "includes" d))).bind (data_merge B)) ∧
    (∀ r : Node, lastKeyIs "includes" d = false →
      (data_merge A (.map (eraseKey "includes" d))).bind (data_merge B) = .ok r →
      resolve_includes (.map d) =
        .error (.runtimeError "OrderedDict mutated during iteration")) ∧
    (∀ (ma mb rm : List (String × Node)) (k : String) (vD vA vB : Node),
      A = .map ma → B = .map mb →
      keysNodup d = true → keysNodup ma = true →
      k ≠ "includes" →
      resolve_includes (.map d) = .ok (.map rm) →
      alookup k d = some vD → alookup k ma = some vA → alookup k mb = some vB →
      isPyScalar vA = true → isPyScalar vB = true →
      alookup k rm = some vD) ∧
    (∀ (ma mb rm : List (String × Node)) (k : String) (vA vB : Node),
      A = .map ma → B = .map mb →
      keysNodup d = true → keysNodup ma = true →
      resolve_includes (.map d) = .ok (.map rm) →
      alookup k d = none → alookup k ma = some vA → alookup k mb = some vB →
      isPyScalar vB = true →
      alookup k rm = some vA) := by
  have hchain : resolveChain [A, B] (.map (eraseKey "includes" d)) =
      (data_merge A (.map (eraseKey "includes" d))).bind (data_merge B) := by
    simp only [resolveChain, hA, Except.bind]
    cases h1 : data_merge A (.map (eraseKey "includes" d)) with
    | error e => rfl
    | ok x =>
      simp only [resolveChain, hB, Except.bind]
      cases h2 : data_merge B x with
      | error e => rfl
      | ok y => rfl
  have hdecomp : ∀ rm : List (String × Node),
      resolve_includes (.map d) = .ok (.map rm) →
      (data_merge A (.map (eraseKey "includes" d))).bind (data_merge B) =
        .ok (.map rm) := by
    intro rm hok
    rw [resolve_includes_seq_raw hinc, hchain] at hok
    cases hc : (data_merge A (.map (eraseKey "includes" d))).bind (data_merge B) with
    | error e => rw [hc] at hok; simp [Except.bind] at hok
    | ok x =>
      rw [hc] at hok
      simp only [Except.bind] at hok
      split at hok
      · cases hok
        rfl
      · cases hok
  refine ⟨?_, ?_, ?_, ?_⟩
  · intro hlast
    rw [resolve_includes_seq_eq hinc hlast, hchain]
  · intro r hnl hok
    exact resolve_includes_seq_not_last hinc hnl (by rw [hchain]; exact hok)
  · rintro ma mb rm k vD vA vB rfl rfl hndd hndma hkinc hok hkd hkma hkmb hsA hsB
    have hok' := hdecomp rm hok
    cases h1 : data_merge (.map ma) (.map (eraseKey "includes" d)) with
    | error e => rw [h1] at hok'; simp [Except.bind] at hok'
    | ok x =>
      rw [h1] at hok'
      simp only [Except.bind] at hok'
      obtain ⟨mx, hmx, rfl⟩ := dm_map_map_ok h1
      obtain ⟨rmm, hrmm, hr⟩ := dm_map_map_ok hok'
      have hrm : rmm = rm := by cases hr; rfl
      subst hrm
      have hndd'' : keysNodup (eraseKey "includes" d) = true := keysNodup_eraseKey hndd
      have ML1 := mergeInto_lookup hndd'' hmx
      have hkd'' : alookup k (eraseKey "includes" d) = some vD := by
        rw [alookup_eraseKey_ne hkinc]; exact hkd
      obtain ⟨v, hv, hlkx⟩ := (ML1 k).2.2 vA vD hkma hkd''
      rw [data_merge_scalar vD hsA] at hv
      cases hv
      have hndmx : keysNodup mx = true := keysNodup_mergeInto hndma hmx
      have ML2 := mergeInto_lookup hndmx hrmm
      obtain ⟨v2, hv2, hlkr⟩ := (ML2 k).2.2 vB vD hkmb hlkx
      rw [data_merge_scalar vD hsB] at hv2
      cases hv2
      exact hlkr
  · rintro ma mb rm k vA vB rfl rfl hndd hndma hok hkd hkma hkmb hsB
    have hok' := hdecomp rm hok
    cases h1 : data_merge (.map ma) (.map (eraseKey "includes" d)) with
    | error e => rw [h1] at hok'; simp [Except.bind] at hok'
    | ok x =>
      rw [h1] at hok'
      simp only [Except.bind] at hok'
      obtain ⟨mx, hmx, rfl⟩ := dm_map_map_ok h1
      obtain ⟨rmm, hrmm, hr⟩ := dm_map_map_ok hok'
      have hrm : rmm = rm := by cases hr; rfl
      subst hrm
      have hndd'' : keysNodup (eraseKey "includes" d) = true := keysNodup_eraseKey hndd
      have ML1 := mergeInto_lookup hndd'' hmx
      have hkd'' : alookup k (eraseKey "includes" d) = none :=
        alookup_eraseKey_of_none hkd
      have hlkx : alookup k mx = some vA := by
        rw [(ML1 k).1 hkd'']; exact hkma
      have hndmx : keysNodup mx = true := keysNodup_mergeInto hndma hmx
      have ML2 := mergeInto_lookup hndmx hrmm
      obtain ⟨v2, hv2, hlkr⟩ := (ML2 k).2.2 vB vA hkmb hlkx
      rw [data_merge_scalar vA hsB] at hv2
      cases hv2
      exact hlkr

/-- C1, counterexample: the claim's corollary "for any key defined in D and
in the includes, D's value is the resolved value" fails when an include's
value at the key is a mapping.  Here `D = {k: {x: 1}, includes: [A, B]}`,
`A = {k: {y: 2}}`, `B = {k: 3}` (both already resolved), and the resolved
value of `k` is the deep merge `{y: 2, x: 1}`, not D's value `{x: 1}`. -/
theorem C1_counterexample :
    alookup "includes"
        [("k", Node.map [("x", Node.int 1)]),
         ("includes", Node.seq [Node.map [("k", Node.map [("y", Node.int 2)])],
                                Node.map [("k", Node.int 3)]])] =
      some (.seq [.map [("k", .map [("y", .int 2)])], .map [("k", .int 3)]]) ∧
    resolve_includes (.map [("k", .map [("y", .int 2)])]) =
      .ok (.map [("k", .map [("y", .int 2)])]) ∧
    resolve_includes (.map [("k", .int 3)]) = .ok (.map [("k", .int 3)]) ∧
    resolve_includes (.map [("k", .map [("x", .int 1)]),
        ("includes", .seq [.map [("k", .map [("y", .int 2)])], .map [("k", .int 3)]])]) =
      .ok (.map [("k", .map [("y", .int 2), ("x", .int 1)])]) ∧
    (Node.map [("y", Node.int 2), ("x", Node.int 1)] ≠ Node.map [("x", Node.int 1)]) := by
  refine ⟨?_, ?_, ?_, ?_, ?_⟩
  · simp [alookup]
  · simp [resolve_includes, alookup]
  · simp [resolve_includes, alookup]
  · simp [resolve_includes, resolveChain, alookup, eraseKey, lastKeyIs, data_merge,
      mergeInto, asMap, pyUpdate, Except.bind, Except.map]
  · simp

/-- C1, witness: the amended precedence applied to
`D = {v: 7, includes: [A, B]}`, `A = {v: 1, w: 2}`, `B = {v: 3, w: 4}` with
scalar values: `v` (defined everywhere) resolves to D's `7`, and `w`
(absent from D) resolves to A's `2`. -/
theorem C1_witness :
    alookup "v" [("v", Node.int 7), ("w", Node.int 2)] = some (.int 7) ∧
    alookup "w" [("v", Node.int 7), ("w", Node.int 2)] = some (.int 2) := by
  have H := C1_amended_merge_precedence
    [("v", .int 7), ("includes", .seq [.map [("v", .int 1), ("w", .int 2)],
      .map [("v", .int 3), ("w", .int 4)]])]
    (.map [("v", .int 1), ("w", .int 2)]) (.map [("v", .int 3), ("w", .int 4)])
    (by simp [alookup]) (by simp [resolve_includes, alookup])
    (by simp [resolve_includes, alookup])
  constructor
  · exact H.2.2.1 [("v", .int 1), ("w", .int 2)] [("v", .int 3), ("w", .int 4)]
      [("v", Node.int 7), ("w", Node.int 2)] "v" (.int 7) (.int 1) (.int 3)
      rfl rfl
      (by simp [keysNodup, alookup]) (by simp [keysNodup, alookup]) (by simp)
      (by simp [resolve_includes, resolveChain, alookup, eraseKey, lastKeyIs,
        data_merge, mergeInto, asMap, pyUpdate, Except.bind, Except.map])
      (by simp [alookup]) (by simp [alookup]) (by simp [alookup]) rfl rfl
  · exact H.2.2.2 [("v", .int 1), ("w", .int 2)] [("v", .int 3), ("w", .int 4)]
      [("v", Node.int 7), ("w", Node.int 2)] "w" (.int 2) (.int 4)
      rfl rfl
      (by simp [keysNodup, alookup]) (by simp [keysNodup, alookup])
      (by simp [resolve_includes, resolveChain, alookup, eraseKey, lastKeyIs,
        data_merge, mergeInto, asMap, pyUpdate, Except.bind, Except.map])
      (by simp [alookup]) (by simp [alookup]) (by simp [alookup]) rfl

/-- C2, counterexample: the claim says a mapping nested anywhere in the tree
with an `includes` key has that key resolved and merged; on the code,
`resolve_includes` does not recurse into mapping values, so a nested
`includes` key under an ordinary key survives resolution unchanged. -/
theorem C2_counterexample :
    resolve_includes
        (.map [("outer", .map [("includes", .seq [.map [("a", .int 1)]])])]) =
      .ok (.map [("outer", .map [("includes", .seq [.map [("a", .int 1)]])])]) ∧
    hasIncludesKey
        (.map [("outer", .map [("includes", .seq [.map [("a", .int 1)]])])]) = true := by
  constructor
  · simp [resolve_includes, alookup]
  · simp [hasIncludesKey, hikMap, hikList]

/-- C2, amended: `resolve_includes` processes only a mapping's own top-level
`includes` key; each listed fragment is recursively resolved before being
merged (post-order, so multi-level include chains flatten), and the merged
document is returned only when `includes` is the mapping's last key —
popping an earlier key mid-iteration makes the resumed items iterator
raise `RuntimeError("OrderedDict mutated during iteration")` after the
merges.  The resolver does not recurse into other mapping values or into
sequence items: a mapping without a top-level `includes` key, or a
sequence, is returned unchanged even when nested values still carry
`includes` keys. -/
theorem C2_amended_top_level_only :
    (∀ (d : List (String × Node)) (A rA : Node),
      alookup "includes" d = some (.seq [A]) →
      resolve_includes A = .ok rA →
      (lastKeyIs "includes" d = true →
        resolve_includes (.map d) = data_merge rA (.map (eraseKey "includes" d))) ∧
      (∀ r : Node, lastKeyIs "includes" d = false →
        data_merge rA (.map (eraseKey "includes" d)) = .ok r →
        resolve_includes (.map d) =
          .error (.runtimeError "OrderedDict mutated during iteration"))) ∧
    (∀ m : List (String × Node), alookup "includes" m = none →
      resolve_includes (.map m) = .ok (.map m)) ∧
    (∀ xs : List Node, resolve_includes (.seq xs) = .ok (.seq xs)) := by
  refine ⟨?_, ?_, ?_⟩
  · intro d A rA hinc hA
    have hchain : resolveChain [A] (.map (eraseKey "includes" d)) =
        data_merge rA (.map (eraseKey "includes" d)) := by
      simp only [resolveChain, hA, Except.bind]
      cases h1 : data_merge rA (.map (eraseKey "includes" d)) with
      | error e => rfl
      | ok x => simp [resolveChain]
    constructor
    · intro hlast
      rw [resolve_includes_seq_eq hinc hlast, hchain]
    · intro r hnl hok
      exact resolve_includes_seq_not_last hinc hnl (by rw [hchain]; exact hok)
  · intro m hm
    exact resolve_includes_none_eq hm
  · intro xs
    simp [resolve_includes]

/-- C2, witness: the amended statement applied to a two-level include chain
`{includes: [{includes: [{b: 5}]}]}` — each mapping's `includes` key is its
(only, hence last) key, the inner fragment is fully resolved to `{b: 5}`
before being merged, and the chain flattens — and to a sequence, which is
returned unchanged. -/
theorem C2_witness :
    resolve_includes (.map [("includes",
        .seq [.map [("includes", .seq [.map [("b", .int 5)]])]])]) =
      .ok (.map [("b", .int 5)]) ∧
    resolve_includes (.seq [.int 1]) = .ok (.seq [.int 1]) := by
  constructor
  · have := (C2_amended_top_level_only.1
      [("includes", .seq [.map [("includes", .seq [.map [("b", .int 5)]])]])]
      (.map [("includes", .seq [.map [("b", .int 5)]])])
      (.map [("b", .int 5)])
      (by simp [alookup])
      (by simp [resolve_includes, resolveChain, alookup, eraseKey, lastKeyIs,
        data_merge, mergeInto, asMap, pyUpdate, Except.bind, Except.map])).1
      (by simp [lastKeyIs])
    rw [this]
    simp [data_merge, mergeInto, asMap, alookup, eraseKey, pyUpdate,
      Except.bind, Except.map]
  · exact C2_amended_top_level_only.2.2 [.int 1]

theorem convertItems_error_shape {f : String → Option String} :
    ∀ {items : List TItem} {e : PyErr},
      convertItems f items = .error e →
      e = .invalidPlaceholder ∨ ∃ v, e = .keyError v := by
  intro items
  induction items with
  | nil => intro e h; simp [convertItems] at h
  | cons it rest ih =>
    intro e h
    match it with
    | .lit c =>
      simp only [convertItems] at h
      cases hr : convertItems f rest with
      | ok s => rw [hr] at h; simp [Except.map] at h
      | error e' =>
        rw [hr] at h
        simp [Except.map] at h
        subst h
        exact ih hr
    | .escaped =>
      simp only [convertItems] at h
      cases hr : convertItems f rest with
      | ok s => rw [hr] at h; simp [Except.map] at h
      | error e' =>
        rw [hr] at h
        simp [Except.map] at h
        subst h
        exact ih hr
    | .placeholder n =>
      simp only [convertItems] at h
      cases hf : f n with
      | some x =>
        rw [hf] at h
        cases hr : convertItems f rest with
        | ok s => rw [hr] at h; simp [Except.map] at h
        | error e' =>
          rw [hr] at h
          simp [Except.map] at h
          subst h
          exact ih hr
      | none =>
        rw [hf] at h
        simp at h
        subst h
        exact Or.inr ⟨n, rfl⟩
    | .invalid =>
      simp [convertItems] at h
      subst h
      exact Or.inl rfl

theorem wellFormed_no_invalid {cs : List Char} (h : wellFormedTmpl cs = true) :
    TItem.invalid ∉ lexTmpl cs := by
  simp only [wellFormedTmpl, Bool.not_eq_true', List.any_eq_false] at h
  intro hmem
  have := h _ hmem
  simp at this

theorem subst_total_ok {cs : List Char} {f : String → Option String}
    (hwf : wellFormedTmpl cs = true) (hf : ∀ v, (f v).isSome) :
    ∃ s, substTemplate f cs = .ok s := by
  refine convertItems_total_ok (wellFormed_no_invalid hwf) ?_
  intro v _
  cases hv : f v with
  | none => have := hf v; rw [hv] at this; simp at this
  | some x => exact ⟨x, rfl⟩

theorem optLoop_eq {cs : List Char} {m : List (String × String)}
    (hwf : wellFormedTmpl cs = true) :
    ∀ (n : Nat) (ext : List (String × String)),
      ((tmplVars cs).filter (fun v => (slookup v ext).isNone)).length ≤ n →
      (∀ v x, slookup v ext = some x → (slookup v m).getD "" = x) →
      (∀ v x, slookup v m = some x → slookup v ext = some x) →
      optLoop cs ext = substTemplate (fun v => some ((slookup v m).getD "")) cs := by
  intro n
  induction n with
  | zero =>
    intro ext hn hinv1 hinv2
    rw [optLoop.eq_def]
    split
    · rename_i s heq
      obtain ⟨hni, hvars⟩ := convertItems_ok_inv heq
      exact (convertItems_agree heq (by
        intro v hv
        cases hx : slookup v ext with
        | none =>
          exfalso
          have hmem : v ∈ (tmplVars cs).filter (fun v => (slookup v ext).isNone) := by
            rw [List.mem_filter]
            exact ⟨hv, by simp [hx]⟩
          have := List.length_pos_of_mem hmem
          omega
        | some x =>
          rw [hinv1 v x hx])).symm
    · rename_i v heq
      exfalso
      obtain ⟨hmem, hnone⟩ := convertItems_keyError heq
      have hmem' : v ∈ (tmplVars cs).filter (fun v => (slookup v ext).isNone) := by
        rw [List.mem_filter]
        exact ⟨hmem, by simp [hnone]⟩
      have := List.length_pos_of_mem hmem'
      omega
    · rename_i msg heq
      exfalso
      rcases convertItems_error_shape heq with h | ⟨v, h⟩ <;> cases h
    · rename_i heq
      exact absurd (convertItems_invalidPlaceholder heq) (wellFormed_no_invalid hwf)
    · rename_i t heq
      exfalso
      rcases convertItems_error_shape heq with h | ⟨v, h⟩ <;> cases h
    · rename_i msg heq
      exfalso
      rcases convertItems_error_shape heq with h | ⟨v, h⟩ <;> cases h
    · rename_i msg heq
      exfalso
      rcases convertItems_error_shape heq with h | ⟨v, h⟩ <;> cases h
  | succ n ih =>
    intro ext hn hinv1 hinv2
    rw [optLoop.eq_def]
    split
    · rename_i s heq
      obtain ⟨hni, hvars⟩ := convertItems_ok_inv heq
      exact (convertItems_agree heq (by
        intro v hv
        obtain ⟨x, hx⟩ := hvars v hv
        rw [hx, hinv1 v x hx])).symm
    · rename_i v heq
      obtain ⟨hmem, hnone⟩ := convertItems_keyError heq
      have hvm : slookup v m = none := by
        cases hvm : slookup v m with
        | none => rfl
        | some x =>
          have := hinv2 v x hvm
          rw [hnone] at this
          cases this
      refine ih (supdate ext v "") ?_ ?_ ?_
      · have hlt := length_filter_lt
          (p := fun w => (slookup w ext).isNone)
          (q := fun w => (slookup w (supdate ext v "")).isNone)
          (l := tmplVars cs)
          (by
            intro x hx
            by_cases hxv : x = v
            · subst hxv
              simp [slookup_supdate_self] at hx
            · simp only [slookup_supdate_ne ext v "" x hxv] at hx
              simpa using hx)
          hmem
          (by simp [hnone])
          (by simp [slookup_supdate_self])
        omega
      · intro w x hw
        by_cases hwv : w = v
        · subst hwv
          rw [slookup_supdate_self] at hw
          cases hw
          rw [hvm]
          rfl
        · rw [slookup_supdate_ne ext v "" w hwv] at hw
          exact hinv1 w x hw
      · intro w x hw
        by_cases hwv : w = v
        · subst hwv
          rw [hvm] at hw
          cases hw
        · rw [slookup_supdate_ne ext v "" w hwv]
          exact hinv2 w x hw
    · rename_i msg heq
      exfalso
      rcases convertItems_error_shape heq with h | ⟨v, h⟩ <;> cases h
    · rename_i heq
      exact absurd (convertItems_invalidPlaceholder heq) (wellFormed_no_invalid hwf)
    · rename_i t heq
      exfalso
      rcases convertItems_error_shape heq with h | ⟨v, h⟩ <;> cases h
    · rename_i msg heq
      exfalso
      rcases convertItems_error_shape heq with h | ⟨v, h⟩ <;> cases h
    · rename_i msg heq
      exfalso
      rcases convertItems_error_shape heq with h | ⟨v, h⟩ <;> cases h

/-- C6: for every syntactically well-formed optional template and every
variable mapping, `OptionalTemplate.substitute` succeeds, and its value is
the strict substitution under the mapping totalized with the empty string —
i.e. absent variables' occurrences become `""` and present variables get
their mapped values.  The retry loop is embedded as a total function whose
termination argument is the claim's own (each retry strictly shrinks the
set of unresolved variables), and it only ever extends a private copy of
the mapping — the caller's mapping value is never changed. -/
theorem C6_optional_substitute (tmpl : String) (m : List (String × String))
    (hwf : wellFormedTmpl tmpl.data = true) :
    ∃ s, optionalSubstitute tmpl m = .ok s ∧
      substTemplate (fun v => some ((slookup v m).getD "")) tmpl.data = .ok s := by
  obtain ⟨s, hs⟩ := subst_total_ok (f := fun v => some ((slookup v m).getD "")) hwf
    (by intro v; rfl)
  refine ⟨s, ?_, hs⟩
  rw [optionalSubstitute,
    optLoop_eq hwf ((tmplVars tmpl.data).filter (fun v => (slookup v m).isNone)).length m
      (Nat.le_refl _) (by intro v x hx; rw [hx]; rfl) (by intro v x hx; exact hx)]
  exact hs

/-- C6, witness: the optional template `$X` with a mapping that lacks `X`
resolves to the empty string (the strict substitution with `X` bound to
`""`). -/
theorem C6_witness :
    ∃ s, optionalSubstitute "$X" [("Y", "y")] = .ok s ∧
      substTemplate (fun v => some ((slookup v [("Y", "y")]).getD "")) "$X".data = .ok s := by
  refine C6_optional_substitute "$X" [("Y", "y")] ?_
  rw [show "$X".data = ['$', 'X'] from rfl]
  simp [wellFormedTmpl, lexTmpl, parseNamed, takeIdCont, isIdStart, isIdCont]

/-- A strict template is defective under a mapping: its placeholder grammar
is malformed, or it references a variable the mapping lacks. -/
def defectiveStrict (f : String → Option String) (t : String) : Bool :=
  !wellFormedTmpl t.data || (tmplVars t.data).any (fun v => (f v).isNone)

mutual

/-- Does some value reachable through sequences and mappings (the only
containers `resolve_templates` recurses into) satisfy `p`? -/
def anyNode (p : Node → Bool) : Node → Bool
  | .seq xs => anyL p xs
  | .map kvs => anyM p kvs
  | d => p d
termination_by d => sizeOf d
decreasing_by
  all_goals simp_wf <;> omega

/-- `anyNode` over sequence items. -/
def anyL (p : Node → Bool) : List Node → Bool
  | [] => false
  | x :: xs => anyNode p x || anyL p xs
termination_by l => sizeOf l
decreasing_by
  all_goals simp_wf <;> omega

/-- `anyNode` over mapping values. -/
def anyM (p : Node → Bool) : List (String × Node) → Bool
  | [] => false
  | (_, v) :: rest => anyNode p v || anyM p rest
termination_by l => sizeOf l
decreasing_by
  all_goals simp_wf <;> omega

end

/-- Leaf test: a defective strict template node. -/
def pDefStrict (f : String → Option String) : Node → Bool := fun n =>
  match n with
  | .tmpl s => defectiveStrict f s
  | _ => false

/-- Leaf test: a malformed optional template node. -/
def pMalOpt : Node → Bool := fun n =>
  match n with
  | .otmpl s => !wellFormedTmpl s.data
  | _ => false

/-- Leaf test: the strict template node with template string `t`. -/
def pIsTmpl (t : String) : Node → Bool := fun n =>
  match n with
  | .tmpl s => decide (s = t)
  | _ => false

/-- The strict template string `t` occurs as a value in the tree (through
the containers `resolve_templates` recurses into). -/
def occursStrict (t : String) (x : Node) : Bool :=
  anyNode (pIsTmpl t) x

/-- `resolve_templates` argument shapes that do not raise `TypeError`. -/
def isContainer : Node → Bool
  | .seq _ => true
  | .map _ => true
  | _ => false

/-- Classification of a `resolve_templates` failure over the strict
templates selected by `occ`: a wrapped "Invalid template string" error
quoting a malformed occurring template, or a propagated `KeyError` naming a
variable that an occurring template references and the mapping lacks. -/
def ErrClassP (m : List (String × String)) (occ : String → Bool) (e : PyErr) : Prop :=
  (∃ t, e = .invalidTemplateString t ∧ occ t = true ∧ wellFormedTmpl t.data = false) ∨
  (∃ v, e = .keyError v ∧ slookup v m = none ∧
    ∃ t, occ t = true ∧ v ∈ tmplVars t.data)

theorem ErrClassP_mono {m : List (String × String)} {occ1 occ2 : String → Bool}
    (h : ∀ t, occ1 t = true → occ2 t = true) {e : PyErr}
    (he : ErrClassP m occ1 e) : ErrClassP m occ2 e := by
  rcases he with ⟨t, he, ho, hw⟩ | ⟨v, he, hn, t, ho, hv⟩
  · exact Or.inl ⟨t, he, h t ho, hw⟩
  · exact Or.inr ⟨v, he, hn, t, h t ho, hv⟩

theorem wellFormed_iff {cs : List Char} :
    wellFormedTmpl cs = true ↔ TItem.invalid ∉ lexTmpl cs := by
  unfold wellFormedTmpl
  cases hany : (lexTmpl cs).any (· = TItem.invalid) with
  | true =>
    rw [List.any_eq_true] at hany
    obtain ⟨x, hx, hxe⟩ := hany
    have hxi : x = TItem.invalid := by simpa using hxe
    subst hxi
    simp [hx]
  | false =>
    rw [List.any_eq_false] at hany
    simp
    intro hmem
    have := hany _ hmem
    simp at this

theorem invalid_mem_not_wf {cs : List Char} (h : TItem.invalid ∈ lexTmpl cs) :
    wellFormedTmpl cs = false := by
  cases hw : wellFormedTmpl cs with
  | false => rfl
  | true => exact absurd h (wellFormed_iff.mp hw)

theorem defectiveStrict_false_iff {f : String → Option String} {t : String} :
    defectiveStrict f t = false ↔
      (wellFormedTmpl t.data = true ∧
        ∀ v ∈ tmplVars t.data, (f v).isNone = false) := by
  unfold defectiveStrict
  cases hw : wellFormedTmpl t.data
  · simp
  · simp [List.any_eq_false]
    constructor
    · intro h v hv
      cases hfv : f v with
      | none => exact absurd hfv (h v hv)
      | some x => simp
    · intro h v hv hnone
      have := h v hv
      rw [hnone] at this
      simp at this

theorem subst_ok_iff_not_defective {f : String → Option String} {t : String} :
    (∃ s, substTemplate f t.data = .ok s) ↔ defectiveStrict f t = false := by
  rw [defectiveStrict_false_iff]
  constructor
  · rintro ⟨s, hs⟩
    obtain ⟨hni, hvars⟩ := convertItems_ok_inv hs
    refine ⟨wellFormed_iff.mpr hni, ?_⟩
    intro v hv
    obtain ⟨x, hx⟩ := hvars v hv
    simp [hx]
  · rintro ⟨hwf, hvars⟩
    refine convertItems_total_ok (wellFormed_iff.mp hwf) ?_
    intro v hv
    have := hvars v hv
    cases hx : f v with
    | none => rw [hx] at this; simp at this
    | some x => exact ⟨x, rfl⟩

theorem optionalSubstitute_ok {t : String} {m : List (String × String)}
    (hwf : wellFormedTmpl t.data = true) :
    ∃ s, optionalSubstitute t m = .ok s := by
  obtain ⟨s, hs⟩ := subst_total_ok (f := fun v => some ((slookup v m).getD "")) hwf
    (by intro v; rfl)
  refine ⟨s, ?_⟩
  rw [optionalSubstitute,
    optLoop_eq hwf ((tmplVars t.data).filter (fun v => (slookup v m).isNone)).length m
      (Nat.le_refl _) (by intro v x hx; rw [hx]; rfl) (by intro v x hx; exact hx)]
  exact hs

theorem list_sizeOf_pos {α : Type} [SizeOf α] (l : List α) : 1 ≤ sizeOf l := by
  cases l <;> simp <;> omega

theorem rt_class (m : List (String × String)) : ∀ n : Nat,
    (∀ x : Node, sizeOf x ≤ n → anyNode pMalOpt x = false →
      ((∃ r, rtItem m x = .ok r) ↔
        anyNode (pDefStrict (fun v => slookup v m)) x = false) ∧
      (∀ e, rtItem m x = .error e →
        ErrClassP m (fun t => occursStrict t x) e)) ∧
    (∀ xs : List Node, sizeOf xs ≤ n → anyL pMalOpt xs = false →
      ((∃ r, rtList m xs = .ok r) ↔
        anyL (pDefStrict (fun v => slookup v m)) xs = false) ∧
      (∀ e, rtList m xs = .error e →
        ErrClassP m (fun t => anyL (pIsTmpl t) xs) e)) ∧
    (∀ kvs : List (String × Node), sizeOf kvs ≤ n → anyM pMalOpt kvs = false →
      ((∃ r, rtMap m kvs = .ok r) ↔
        anyM (pDefStrict (fun v => slookup v m)) kvs = false) ∧
      (∀ e, rtMap m kvs = .error e →
        ErrClassP m (fun t => anyM (pIsTmpl t) kvs) e)) := by
  intro n
  induction n with
  | zero =>
    refine ⟨?_, ?_, ?_⟩
    · intro x hsz
      have := node_sizeOf_pos x
      omega
    · intro xs hsz
      have := list_sizeOf_pos xs
      omega
    · intro kvs hsz
      have := list_sizeOf_pos kvs
      omega
  | succ n ih =>
    obtain ⟨ihI, ihL, ihM⟩ := ih
    refine ⟨?_, ?_, ?_⟩
    · -- items
      intro x hsz hopt
      cases x with
      | tmpl t =>
        have key : (∃ r, rtItem m (.tmpl t) = .ok r) ↔
            (∃ s, substTemplate (fun v => slookup v m) t.data = .ok s) := by
          simp only [rtItem]
          constructor
          · rintro ⟨r, hr⟩
            split at hr
            · rename_i s heq
              exact ⟨s, heq⟩
            · cases hr
            · cases hr
          · rintro ⟨s, hs⟩
            refine ⟨.str s, ?_⟩
            rw [hs]
        constructor
        · rw [key, subst_ok_iff_not_defective]
          simp [anyNode, pDefStrict]
        · intro e h
          simp only [rtItem] at h
          cases hsub : substTemplate (fun v => slookup v m) t.data with
          | ok s => rw [hsub] at h; simp at h
          | error e2 =>
            rw [hsub] at h
            rcases convertItems_error_shape hsub with rfl | ⟨v, rfl⟩
            · simp at h
              subst h
              refine Or.inl ⟨t, rfl, ?_, ?_⟩
              · simp [occursStrict, anyNode, pIsTmpl]
              · exact invalid_mem_not_wf (convertItems_invalidPlaceholder hsub)
            · simp at h
              subst h
              obtain ⟨hmem, hnone⟩ := convertItems_keyError hsub
              refine Or.inr ⟨v, rfl, hnone, t, ?_, hmem⟩
              simp [occursStrict, anyNode, pIsTmpl]
      | otmpl t =>
        have hwf : wellFormedTmpl t.data = true := by
          simp only [anyNode, pMalOpt] at hopt
          simpa using hopt
        obtain ⟨s, hs⟩ := optionalSubstitute_ok (m := m) hwf
        constructor
        · constructor
          · intro _
            simp [anyNode, pDefStrict]
          · intro _
            exact ⟨.str s, by simp [rtItem, hs, Except.map]⟩
        · intro e h
          simp [rtItem, hs, Except.map] at h
      | seq xs =>
        have hsz' : sizeOf xs ≤ n := by simp at hsz; omega
        have hopt' : anyL pMalOpt xs = false := by simpa [anyNode] using hopt
        obtain ⟨hiff, herr⟩ := ihL xs hsz' hopt'
        constructor
        · constructor
          · rintro ⟨r, hr⟩
            simp only [rtItem] at hr
            cases hl : rtList m xs with
            | error e => rw [hl] at hr; simp [Except.map] at hr
            | ok ys =>
              simp only [anyNode]
              exact hiff.mp ⟨ys, hl⟩
          · intro hdef
            obtain ⟨ys, hys⟩ := hiff.mpr (by simpa [anyNode] using hdef)
            exact ⟨.seq ys, by simp [rtItem, hys, Except.map]⟩
        · intro e h
          simp only [rtItem] at h
          rw [except_map_error] at h
          refine ErrClassP_mono ?_ (herr e h)
          intro t' ht'
          simpa [occursStrict, anyNode] using ht'
      | map kvs =>
        have hsz' : sizeOf kvs ≤ n := by simp at hsz; omega
        have hopt' : anyM pMalOpt kvs = false := by simpa [anyNode] using hopt
        obtain ⟨hiff, herr⟩ := ihM kvs hsz' hopt'
        constructor
        · constructor
          · rintro ⟨r, hr⟩
            simp only [rtItem] at hr
            cases hl : rtMap m kvs with
            | error e => rw [hl] at hr; simp [Except.map] at hr
            | ok ys =>
              simp only [anyNode]
              exact hiff.mp ⟨ys, hl⟩
          · intro hdef
            obtain ⟨ys, hys⟩ := hiff.mpr (by simpa [anyNode] using hdef)
            exact ⟨.map ys, by simp [rtItem, hys, Except.map]⟩
        · intro e h
          simp only [rtItem] at h
          rw [except_map_error] at h
          refine ErrClassP_mono ?_ (herr e h)
          intro t' ht'
          simpa [occursStrict, anyNode] using ht'
      | null =>
        exact ⟨by simp [rtItem, anyNode, pDefStrict], by intro e h; simp [rtItem] at h⟩
      | bool v =>
        exact ⟨by simp [rtItem, anyNode, pDefStrict], by intro e h; simp [rtItem] at h⟩
      | int v =>
        exact ⟨by simp [rtItem, anyNode, pDefStrict], by intro e h; simp [rtItem] at h⟩
      | float v =>
        exact ⟨by simp [rtItem, anyNode, pDefStrict], by intro e h; simp [rtItem] at h⟩
      | str v =>
        exact ⟨by simp [rtItem, anyNode, pDefStrict], by intro e h; simp [rtItem] at h⟩
      | tuple v =>
        exact ⟨by simp [rtItem, anyNode, pDefStrict], by intro e h; simp [rtItem] at h⟩
      | obj v =>
        exact ⟨by simp [rtItem, anyNode, pDefStrict], by intro e h; simp [rtItem] at h⟩
    · -- lists
      intro xs hsz hopt
      cases xs with
      | nil =>
        exact ⟨by simp [rtList, anyL], by intro e h; simp [rtList] at h⟩
      | cons x rest =>
        have hszx : sizeOf x ≤ n := by simp at hsz; omega
        have hszr : sizeOf rest ≤ n := by simp at hsz; omega
        have hox : anyNode pMalOpt x = false := by
          simp only [anyL, Bool.or_eq_false_iff] at hopt
          exact hopt.1
        have hor : anyL pMalOpt rest = false := by
          simp only [anyL, Bool.or_eq_false_iff] at hopt
          exact hopt.2
        obtain ⟨hiffx, herrx⟩ := ihI x hszx hox
        obtain ⟨hiffr, herrr⟩ := ihL rest hszr hor
        constructor
        · constructor
          · rintro ⟨r, hr⟩
            simp only [rtList] at hr
            cases hx : rtItem m x with
            | error e => rw [hx] at hr; simp [Except.bind] at hr
            | ok y =>
              rw [hx] at hr
              simp only [Except.bind] at hr
              cases hrest : rtList m rest with
              | error e => rw [hrest] at hr; simp [Except.map] at hr
              | ok ys =>
                simp only [anyL, Bool.or_eq_false_iff]
                exact ⟨hiffx.mp ⟨y, hx⟩, hiffr.mp ⟨ys, hrest⟩⟩
          · intro hdef
            simp only [anyL, Bool.or_eq_false_iff] at hdef
            obtain ⟨y, hy⟩ := hiffx.mpr hdef.1
            obtain ⟨ys, hys⟩ := hiffr.mpr hdef.2
            exact ⟨y :: ys, by simp [rtList, hy, hys, Except.bind, Except.map]⟩
        · intro e h
          simp only [rtList] at h
          cases hx : rtItem m x with
          | error e' =>
            rw [hx] at h
            simp only [Except.bind] at h
            cases h
            refine ErrClassP_mono ?_ (herrx _ hx)
            intro t' ht'
            simp only [anyL, Bool.or_eq_true]
            exact Or.inl (by simpa [occursStrict] using ht')
          | ok y =>
            rw [hx] at h
            simp only [Except.bind] at h
            rw [except_map_error] at h
            refine ErrClassP_mono ?_ (herrr e h)
            intro t' ht'
            simp only [anyL, Bool.or_eq_true]
            exact Or.inr ht'
    · -- maps
      intro kvs hsz hopt
      cases kvs with
      | nil =>
        exact ⟨by simp [rtMap, anyM], by intro e h; simp [rtMap] at h⟩
      | cons kv rest =>
        obtain ⟨k, v⟩ := kv
        have hszv : sizeOf v ≤ n := by simp at hsz; omega
        have hszr : sizeOf rest ≤ n := by simp at hsz; omega
        have hov : anyNode pMalOpt v = false := by
          simp only [anyM, Bool.or_eq_false_iff] at hopt
          exact hopt.1
        have hor : anyM pMalOpt rest = false := by
          simp only [anyM, Bool.or_eq_false_iff] at hopt
          exact hopt.2
        obtain ⟨hiffv, herrv⟩ := ihI v hszv hov
        obtain ⟨hiffr, herrr⟩ := ihM rest hszr hor
        constructor
        · constructor
          · rintro ⟨r, hr⟩
            simp only [rtMap] at hr
            cases hx : rtItem m v with
            | error e => rw [hx] at hr; simp [Except.bind] at hr
            | ok y =>
              rw [hx] at hr
              simp only [Except.bind] at hr
              cases hrest : rtMap m rest with
              | error e => rw [hrest] at hr; simp [Except.map] at hr
              | ok ys =>
                simp only [anyM, Bool.or_eq_false_iff]
                exact ⟨hiffv.mp ⟨y, hx⟩, hiffr.mp ⟨ys, hrest⟩⟩
          · intro hdef
            simp only [anyM, Bool.or_eq_false_iff] at hdef
            obtain ⟨y, hy⟩ := hiffv.mpr hdef.1
            obtain ⟨ys, hys⟩ := hiffr.mpr hdef.2
            exact ⟨(k, y) :: ys, by simp [rtMap, hy, hys, Except.bind, Except.map]⟩
        · intro e h
          simp only [rtMap] at h
          cases hx : rtItem m v with
          | error e' =>
            rw [hx] at h
            simp only [Except.bind] at h
            cases h
            refine ErrClassP_mono ?_ (herrv _ hx)
            intro t' ht'
            simp only [anyM, Bool.or_eq_true]
            exact Or.inl (by simpa [occursStrict] using ht')
          | ok y =>
            rw [hx] at h
            simp only [Except.bind] at h
            rw [except_map_error] at h
            refine ErrClassP_mono ?_ (herrr e h)
            intro t' ht'
            simp only [anyM, Bool.or_eq_true]
            exact Or.inr ht'

/-- C7: strict template substitution during `resolve_templates` fails
exactly when a strict template in the tree is defective (malformed grammar
or a referenced variable absent from the mapping), and the two failure
modes are distinguished: a malformed template aborts resolution with the
wrapped `ValueError` "Invalid template string '...'" quoting an occurring
malformed template, and a missing variable aborts it with the propagated
`KeyError` naming a variable that an occurring template references and the
mapping lacks (the `Config` caller renders it as "refers to unknown
variable").  The `Except` result aborts the whole resolution: no tree is
produced on error.  Stated for the mapping/sequence trees the function
accepts, with every optional template well-formed (a malformed optional
template would abort with its own unwrapped `ValueError`). -/
theorem C7_strict_template_failures
    (m : List (String × String)) (t : Node)
    (hcont : isContainer t = true)
    (hopt : anyNode pMalOpt t = false) :
    ((∃ r, resolve_templates m t = .ok r) ↔
      anyNode (pDefStrict (fun v => slookup v m)) t = false) ∧
    (∀ e, resolve_templates m t = .error e →
      ErrClassP m (fun s => occursStrict s t) e) := by
  cases t with
  | seq xs =>
    obtain ⟨hiff, herr⟩ := (rt_class m (sizeOf xs)).2.1 xs (Nat.le_refl _)
      (by simpa [anyNode] using hopt)
    constructor
    · constructor
      · rintro ⟨r, hr⟩
        simp only [resolve_templates] at hr
        cases hl : rtList m xs with
        | error e => rw [hl] at hr; simp [Except.map] at hr
        | ok ys =>
          simp only [anyNode]
          exact hiff.mp ⟨ys, hl⟩
      · intro hdef
        obtain ⟨ys, hys⟩ := hiff.mpr (by simpa [anyNode] using hdef)
        exact ⟨.seq ys, by simp [resolve_templates, hys, Except.map]⟩
    · intro e h
      simp only [resolve_templates] at h
      rw [except_map_error] at h
      refine ErrClassP_mono ?_ (herr e h)
      intro t' ht'
      simpa [occursStrict, anyNode] using ht'
  | map kvs =>
    obtain ⟨hiff, herr⟩ := (rt_class m (sizeOf kvs)).2.2 kvs (Nat.le_refl _)
      (by simpa [anyNode] using hopt)
    constructor
    · constructor
      · rintro ⟨r, hr⟩
        simp only [resolve_templates] at hr
        cases hl : rtMap m kvs with
        | error e => rw [hl] at hr; simp [Except.map] at hr
        | ok ys =>
          simp only [anyNode]
          exact hiff.mp ⟨ys, hl⟩
      · intro hdef
        obtain ⟨ys, hys⟩ := hiff.mpr (by simpa [anyNode] using hdef)
        exact ⟨.map ys, by simp [resolve_templates, hys, Except.map]⟩
    · intro e h
      simp only [resolve_templates] at h
      rw [except_map_error] at h
      refine ErrClassP_mono ?_ (herr e h)
      intro t' ht'
      simpa [occursStrict, anyNode] using ht'
  | null => simp [isContainer] at hcont
  | bool v => simp [isContainer] at hcont
  | int v => simp [isContainer] at hcont
  | float v => simp [isContainer] at hcont
  | str v => simp [isContainer] at hcont
  | tuple v => simp [isContainer] at hcont
  | tmpl v => simp [isContainer] at hcont
  | otmpl v => simp [isContainer] at hcont
  | obj v => simp [isContainer] at hcont

/-- C7, witness: a tree whose only strict template `$X` is well formed with
`X` present resolves successfully, and resolving `{"a": $Z}` under the
empty mapping fails with `KeyError("Z")`, which the classification
attributes to the occurring template `$Z` and the missing variable `Z`. -/
theorem C7_witness :
    (∃ r, resolve_templates [("X", "v")] (.map [("a", .tmpl "$X")]) = .ok r) ∧
    ErrClassP [] (fun s => occursStrict s (.map [("a", .tmpl "$Z")])) (.keyError "Z") := by
  constructor
  · refine (C7_strict_template_failures [("X", "v")] (.map [("a", .tmpl "$X")]) rfl
      ?_).1.mpr ?_
    · simp [anyNode, anyM, pMalOpt]
    · have hd : "$X".data = ['$', 'X'] := rfl
      simp [anyNode, anyM, pDefStrict, defectiveStrict, hd, wellFormedTmpl, lexTmpl,
        parseNamed, takeIdCont, isIdStart, isIdCont, tmplVars, itemVars, slookup]
  · refine (C7_strict_template_failures [] (.map [("a", .tmpl "$Z")]) rfl
      ?_).2 (.keyError "Z") ?_
    · simp [anyNode, anyM, pMalOpt]
    · have hd : "$Z".data = ['$', 'Z'] := rfl
      simp [resolve_templates, rtMap, rtItem, substTemplate, hd, lexTmpl,
        parseNamed, takeIdCont, isIdStart, isIdCont, convertItems, slookup,
        Except.bind, Except.map]

/-- `os.path.join(a, b)` (POSIX) for the two-component case used by
`_construct_include`: an absolute second component replaces the first;
otherwise the components are joined with a `/` separator. -/
def pyPathJoin (a b : String) : String :=
  match b.data with
  | '/' :: _ => b
  | _ =>
    if a.data = [] then a ++ b
    else
      match a.data.getLast? with
      | some '/' => a ++ b
      | _ => a ++ "/" ++ b

/-- The path-resolution step of `_construct_include(loader, node)`:
`Template(scalar).substitute(loader.substitutions)` inside a
`try/except KeyError` that re-raises as
`InvalidConfigError(f'Could not resolve key {e}')` (Python renders the
`KeyError` as the quoted variable name), followed by joining against the
including document's directory.  `os.path.abspath` (which only normalizes
against the process working directory) and the subsequent file read are
outside the embedding; the claim concerns the substitution outcome. -/
def construct_include_path (root tmpl : String)
    (subs : List (String × String)) : Except PyErr String :=
  match substTemplate (fun v => slookup v subs) tmpl.data with
  | .ok s => .ok (pyPathJoin root s)
  | .error (.keyError v) =>
    .error (.invalidConfig ("Could not resolve key '" ++ v ++ "'"))
  | .error e => .error e

/-- C8: resolving an include directive whose well-formed path template
references a variable absent from the path-substitution mapping fails with
the configuration error "Could not resolve key" naming (quoting) a missing
variable; when every referenced variable is present, no such error is
raised and the path is formed by substituting the variables into the
template and joining against the including document's directory. -/
theorem C8_include_path_key_errors (root tmpl : String)
    (subs : List (String × String))
    (hwf : wellFormedTmpl tmpl.data = true) :
    ((∃ v, v ∈ tmplVars tmpl.data ∧ slookup v subs = none) →
      ∃ v, v ∈ tmplVars tmpl.data ∧ slookup v subs = none ∧
        construct_include_path root tmpl subs =
          .error (.invalidConfig ("Could not resolve key '" ++ v ++ "'"))) ∧
    ((∀ v ∈ tmplVars tmpl.data, (slookup v subs).isSome = true) →
      ∃ s, substTemplate (fun v => slookup v subs) tmpl.data = .ok s ∧
        construct_include_path root tmpl subs = .ok (pyPathJoin root s)) := by
  constructor
  · rintro ⟨v, hv, hnone⟩
    cases hsub : substTemplate (fun w => slookup w subs) tmpl.data with
    | ok s =>
      exfalso
      obtain ⟨-, hvars⟩ := convertItems_ok_inv hsub
      obtain ⟨x, hx⟩ := hvars v hv
      rw [hx] at hnone
      cases hnone
    | error e =>
      rcases convertItems_error_shape hsub with rfl | ⟨w, rfl⟩
      · exact absurd (invalid_mem_not_wf (convertItems_invalidPlaceholder hsub))
          (by rw [hwf]; simp)
      · obtain ⟨hmem, hwnone⟩ := convertItems_keyError hsub
        exact ⟨w, hmem, hwnone, by simp [construct_include_path, hsub]⟩
  · intro hall
    have hok : ∃ s, substTemplate (fun w => slookup w subs) tmpl.data = .ok s := by
      refine convertItems_total_ok (wellFormed_no_invalid hwf) ?_
      intro v hv
      have := hall v hv
      cases hx : slookup v subs with
      | none => rw [hx] at this; cases this
      | some x => exact ⟨x, rfl⟩
    obtain ⟨s, hs⟩ := hok
    exact ⟨s, hs, by simp [construct_include_path, hs]⟩

/-- C8, witness: `$F` against an empty mapping fails with
"Could not resolve key 'F'", and against `{F: first.yaml}` resolves to the
joined path `/cfg/first.yaml`. -/
theorem C8_witness :
    construct_include_path "/cfg" "$F" [] =
      .error (.invalidConfig "Could not resolve key 'F'") ∧
    construct_include_path "/cfg" "$F" [("F", "first.yaml")] =
      .ok "/cfg/first.yaml" := by
  have hd : "$F".data = ['$', 'F'] := rfl
  have hwf : wellFormedTmpl "$F".data = true := by
    rw [hd]
    simp [wellFormedTmpl, lexTmpl, parseNamed, takeIdCont, isIdStart, isIdCont]
  have hvars : tmplVars "$F".data = ["F"] := by
    rw [hd]
    simp [tmplVars, itemVars, lexTmpl, parseNamed, takeIdCont, isIdStart, isIdCont]
  constructor
  · obtain ⟨v, hv, -, heq⟩ := (C8_include_path_key_errors "/cfg" "$F" [] hwf).1
      ⟨"F", by rw [hvars]; simp, rfl⟩
    rw [hvars] at hv
    simp at hv
    subst hv
    exact heq
  · obtain ⟨s, hs, heq⟩ := (C8_include_path_key_errors "/cfg" "$F"
      [("F", "first.yaml")] hwf).2
      (by rw [hvars]; simp [slookup])
    have hseval : substTemplate (fun v => slookup v [("F", "first.yaml")]) "$F".data =
        .ok "first.yaml" := by
      rw [hd]
      simp [substTemplate, lexTmpl, parseNamed, takeIdCont, isIdStart, isIdCont,
        convertItems, slookup, Except.map]
    rw [hseval] at hs
    cases hs
    rw [heq]
    rfl

/-- C9: the accessor round trip of the `Config` facade (modelled from the
spec, see `setTargetOption`/`getTargetOption`): for every data tree, target
name, option name and value — primitives, sequences, mappings, booleans and
opaque objects alike — `set_target_option` succeeds, creating the
intermediate `options` mapping when absent, and an immediately following
`get_target_option` with the same keys returns the identical value. -/
theorem C9_accessor_roundtrip (data : List (String × Node))
    (target option : String) (v : Node) :
    getTargetOption (setTargetOption data target option v) target option = .ok v := by
  simp only [setTargetOption, getTargetOption, alookup_pyUpdate_self]

/-- C10: `resolve_includes` and `resolve_templates` accept only mappings and
sequences and raise `TypeError("Expected list or dict, got ...")` on every
other input; consequently an `includes` entry that is a raw string (as
produced for an include whose extension is neither yaml/yml nor json) makes
`resolve_includes` fail with that `TypeError` — not with a configuration
error (`InvalidConfigError`). -/
theorem C10_type_errors :
    (∀ t : Node, isContainer t = false →
      resolve_includes t =
        .error (.typeError ("Expected list or dict, got " ++ pyType t)) ∧
      ∀ m : List (String × String), resolve_templates m t =
        .error (.typeError ("Expected list or dict, got " ++ pyType t))) ∧
    (∀ (kvs : List (String × Node)) (s : String) (rest : List Node),
      alookup "includes" kvs = some (.seq (.str s :: rest)) →
      resolve_includes (.map kvs) =
        .error (.typeError "Expected list or dict, got <class 'str'>")) := by
  constructor
  · intro t hc
    cases t <;> simp [isContainer] at hc <;>
      exact ⟨by simp [resolve_includes], by intro m; simp [resolve_templates]⟩
  · intro kvs s rest h
    rw [resolve_includes_seq_raw h]
    have hstr : resolve_includes (.str s) =
        .error (.typeError "Expected list or dict, got <class 'str'>") := by
      simp [resolve_includes, pyType]
    simp [resolveChain, hstr, Except.bind]

/-- C10, witness: a scalar input to either resolver raises the `TypeError`,
and an `includes` sequence whose first entry is the raw-text string
`"raw file contents"` fails `resolve_includes` with the string `TypeError`. -/
theorem C10_witness :
    resolve_includes (.int 3) =
      .error (.typeError ("Expected list or dict, got " ++ pyType (.int 3))) ∧
    resolve_templates [] (.str "x") =
      .error (.typeError ("Expected list or dict, got " ++ pyType (.str "x"))) ∧
    resolve_includes (.map [("includes", .seq [.str "raw file contents"])]) =
      .error (.typeError "Expected list or dict, got <class 'str'>") := by
  refine ⟨(C10_type_errors.1 (.int 3) rfl).1,
    (C10_type_errors.1 (.str "x") rfl).2 [],
    C10_type_errors.2 [("includes", .seq [.str "raw file contents"])]
      "raw file contents" [] ?_⟩
  simp [alookup]
